import Mathlib

/-!
Verification of the scrape-and-persist engine of the onlyfans-deals-finder
repository, against a shallow embedding of `src/list_scraper.py`,
`src/database.py` and `src/cli.py`.

Conventions of the embedding:
* Python strings are Lean `String`s; matching is ASCII (the labels and
  usernames handled by the scraper are ASCII).
* SQLite tables are Lean lists of row structures; `datetime` timestamps are
  abstract `Nat` ticks (a calendar date is encoded by `dateStamp`).
* Python floats carrying prices are modelled as `Rat` (the repository only
  compares, stores and re-parses decimal amounts; `float(str(x))` round-trips).
* A raised exception is an `Except.error`; `try/except` is a `match`.
-/

namespace OFScraper

/-! ## String helpers mirroring the Python string operations used -/

/-- Does the first character list start with the second? -/
def startsWithChars : List Char → List Char → Bool
  | _, [] => true
  | [], _ :: _ => false
  | h :: hs, n :: ns => h == n && startsWithChars hs ns

/-- Does `needle` occur as a contiguous sublist of `hay`? -/
def infixSearch (hay needle : List Char) : Bool :=
  match hay with
  | [] => needle.isEmpty
  | _ :: rest => startsWithChars hay needle || infixSearch rest needle

/-- Model of Python `needle in hay` substring containment. -/
def strContains (hay needle : String) : Bool :=
  infixSearch hay.toList needle.toList

/-- Model of Python `str.upper()` (ASCII view, matching the labels the
scraper handles). -/
def pyUpper (s : String) : String :=
  String.mk (s.toList.map Char.toUpper)

/-- Model of Python `str.strip()`: drop leading and trailing whitespace. -/
def pyStrip (s : String) : String :=
  String.mk
    (((s.toList.dropWhile Char.isWhitespace).reverse.dropWhile
        Char.isWhitespace).reverse)

/-- Model of `username[1:] if username.startswith("@") else username`. -/
def stripSigil (t : String) : String :=
  match t.toList with
  | '@' :: rest => String.mk rest
  | _ => t

/-- Accumulator pass for `pySplit`: `cur` is the reversed current word,
`acc` the reversed list of words already finished. -/
def pySplitRev : List Char → List Char → List String → List String
  | [], cur, acc =>
    if cur.isEmpty then acc else String.mk cur.reverse :: acc
  | c :: rest, cur, acc =>
    if c.isWhitespace then
      pySplitRev rest [] (if cur.isEmpty then acc else String.mk cur.reverse :: acc)
    else
      pySplitRev rest (c :: cur) acc

/-- Model of Python `str.split()` with no argument: split on whitespace
runs, dropping empty pieces. -/
def pySplit (s : String) : List String :=
  (pySplitRev s.toList [] []).reverse

/-- Accumulator pass for `splitComma`. -/
def splitCommaRev : List Char → List Char → List String → List String
  | [], cur, acc => String.mk cur.reverse :: acc
  | c :: rest, cur, acc =>
    if c = ',' then splitCommaRev rest [] (String.mk cur.reverse :: acc)
    else splitCommaRev rest (c :: cur) acc

/-- Model of Python `s.split(",")`: one piece per comma-separated segment
(`[""]` on the empty string). -/
def splitComma (s : String) : List String :=
  (splitCommaRev s.toList [] []).reverse

/-- Model of `",".join(pieces)`. -/
def joinComma : List String → String
  | [] => ""
  | [x] => x
  | x :: y :: ys => x ++ "," ++ joinComma (y :: ys)

/-- Characters counted as word characters by the regex `\b` boundary
(`[A-Za-z0-9_]`, ASCII view). -/
def isWordChar (c : Char) : Bool :=
  c.isAlphanum || c == '_'

/-! ## Model of the regex search for a day-count pattern

`re.search(r"\b\d+\s*days?\b", price_upper)` from
`OnlyFansScraper.get_offer` (src/list_scraper.py line 369). -/

/-- Word boundary required after the day word: end of input or a
non-word character. -/
def boundaryAfter : List Char → Bool
  | [] => true
  | c :: _ => !isWordChar c

/-- Match the literal `DAYS?` followed by a word boundary (the input has
already been uppercased by `get_offer`). -/
def matchDay : List Char → Bool
  | 'D' :: 'A' :: 'Y' :: 'S' :: rest => boundaryAfter rest
  | 'D' :: 'A' :: 'Y' :: rest => boundaryAfter rest
  | _ => false

/-- Skip the `\s*` run and then match the day word. -/
def skipSpacesThenDay : List Char → Bool
  | [] => false
  | c :: rest => if c.isWhitespace then skipSpacesThenDay rest else matchDay (c :: rest)

/-- Search for a match of `\b\d+\s*days?\b` anywhere in the character list;
`prevWord` records whether the previous character was a word character
(for the leading word boundary). -/
def daysSearch : Bool → List Char → Bool
  | _, [] => false
  | prevWord, c :: rest =>
    (if !prevWord && c.isDigit then
      skipSpacesThenDay (rest.dropWhile Char.isDigit)
    else false)
    || daysSearch (isWordChar c) rest

/-- Model of `re.search(r"\b\d+\s*days?\b", s)` returning whether a match
exists. -/
def hasDaysPattern (s : String) : Bool :=
  daysSearch false s.toList

/-! ## Model of the external price_parser library

`price_parser.Price.fromstring(s).amount` extracts the first decimal number
from a currency token such as `"$9.99"`; it is `None` when the token holds no
digit. This models its behaviour on the single whitespace-free tokens that
`standardize_price` feeds it. -/

/-- Numeric value of a digit list read left to right. -/
def digitsToNat (l : List Char) : Nat :=
  l.foldl (fun n c => 10 * n + (c.toNat - 48)) 0

/-- Model of `Price.fromstring(s).amount`: the first digit group, with an
optional fractional part after a decimal point; `none` when `s` has no
digit. -/
def priceAmount (s : String) : Option Rat :=
  let l1 := s.toList.dropWhile (fun c => !c.isDigit)
  let ip := l1.takeWhile Char.isDigit
  if ip.isEmpty then none
  else
    match l1.dropWhile Char.isDigit with
    | '.' :: r2 =>
      let fp := r2.takeWhile Char.isDigit
      some (Rat.divInt (digitsToNat ip * 10 ^ fp.length + digitsToNat fp) (10 ^ fp.length))
    | _ => some (Rat.divInt (digitsToNat ip) 1)

/-! ## The Price/Offer Parser (src/list_scraper.py lines 340-407)

A raised `PriceNotFoundError` is `Except.error ()` (the exception message is
only ever logged). The offer kind is the `String` the Python code returns. -/

/-- Embedding of `OnlyFansScraper.get_offer` (lines 359-376). -/
def get_offer (price_text : String) : Except Unit String :=
  let price_upper := pyUpper price_text
  if strContains price_upper "RENEW" || strContains price_upper "SUBSCRIBED" then
    .ok "SUBSCRIBED"
  else if strContains price_upper "FREE FOR" then
    .ok "FREE_TRIAL"
  else if hasDaysPattern price_upper && !strContains price_upper "FREE" then
    .ok "OFFER"
  else if strContains price_upper "FOR FREE" then
    .ok "FREE"
  else if strContains price_upper "PER MONTH" then
    .ok "NO_OFFER"
  else
    .error ()

/-- Embedding of `OnlyFansScraper.standardize_price` (lines 384-389): parse
the selected token with price_parser, raising when no amount is
recoverable. -/
def standardize_price (price_string : String) : Except Unit Rat :=
  match priceAmount price_string with
  | none => .error ()
  | some a => .ok a

/-- Embedding of `OnlyFansScraper.get_price` (lines 340-357): pick the token
dictated by the offer kind, then standardize it. -/
def get_price (price_text : String) (offer : String) : Except Unit Rat :=
  if offer = "FREE" ∨ offer = "FREE_TRIAL" ∨ offer = "SUBSCRIBED" then
    standardize_price "$0"
  else if offer = "NO_OFFER" then
    let parts := pySplit price_text
    if parts.length < 2 then .error ()
    else
      match parts.get? 1 with
      | some p => standardize_price p
      | none => .error ()
  else if offer = "OFFER" then
    let parts := pySplit price_text
    if parts.length < 4 then .error ()
    else
      match parts.get? (parts.length - 4) with
      | some p => standardize_price p
      | none => .error ()
  else
    .error ()

/-- Embedding of `OnlyFansScraper.get_subscription_status` (lines 391-407). -/
def get_subscription_status (price_element_text : String) : String :=
  match pySplit price_element_text with
  | [] => "INVALID"
  | w :: _ =>
    let text_upper := pyUpper price_element_text
    let first_word := pyUpper w
    if first_word = "SUBSCRIBE" then "NO_SUBSCRIPTION"
    else if first_word = "SUBSCRIBED" ∨ first_word = "RENEW" ∨
        strContains text_upper "SUBSCRIBEDFOR" then "SUBSCRIBED"
    else "INVALID"

/-! ## The History Store (src/database.py)

Each SQLite table is a list of rows in insertion order. `display_name` is
never written by any repository operation and is omitted. Autoincrement ids
are `length + 1` (the store never deletes rows). -/

/-- Row of the `scrape_runs` table (schema lines 46-55). -/
structure ScrapeRunRow where
  id : Nat
  list_id : String
  started_at : Nat
  completed_at : Option Nat
  user_count : Nat
  status : String
deriving DecidableEq

/-- Row of the `users` table (schema lines 58-69), the ProfileCurrentState. -/
structure UserRow where
  username : String
  current_price : Rat
  subscription_status : String
  first_seen : Nat
  last_seen : Nat
  last_scraped_run_id : Nat
deriving DecidableEq

/-- Row of the `price_history` table (schema lines 72-83), an Observation. -/
structure PriceHistoryRow where
  id : Nat
  username : String
  price : Rat
  subscription_status : String
  scraped_at : Nat
  scrape_run_id : Nat
deriving DecidableEq

/-- Row of the `user_lists` table (schema lines 86-97), a ListMembership. -/
structure UserListRow where
  id : Nat
  username : String
  list_name : String
  added_at : Nat
  removed_at : Option Nat
  scrape_run_id : Nat
deriving DecidableEq

/-- The four tables of the store. -/
structure DB where
  scrape_runs : List ScrapeRunRow
  users : List UserRow
  price_history : List PriceHistoryRow
  user_lists : List UserListRow
deriving DecidableEq

/-- The empty store, as created by `_init_schema`. -/
def DB.empty : DB := ⟨[], [], [], []⟩

/-- Embedding of `Database.start_scrape_run` (lines 120-138): insert a
`running` run and return its id. The caller supplies the resolved
`started_at` (the Python default is `datetime.now()`). -/
def start_scrape_run (db : DB) (list_id : String) (started_at : Nat) : DB × Nat :=
  let id := db.scrape_runs.length + 1
  ({ db with scrape_runs :=
      db.scrape_runs ++ [⟨id, list_id, started_at, none, 0, "running"⟩] }, id)

/-- Embedding of `Database.complete_scrape_run` (lines 140-147): set
`completed_at`, `user_count` and `status` on the run with the given id. -/
def complete_scrape_run (db : DB) (run_id : Nat) (user_count : Nat)
    (status : String) (now : Nat) : DB :=
  { db with scrape_runs := db.scrape_runs.map (fun r =>
      if r.id = run_id then
        { r with completed_at := some now, user_count := user_count, status := status }
      else r) }

/-- The `SELECT ... FROM users WHERE username = ?` lookup of `upsert_user`
(line 166); `username` is the table's primary key. -/
def findUser (db : DB) (username : String) : Option UserRow :=
  db.users.find? (fun r => r.username = username)

/-- Names of the lists the user currently belongs to: the
`SELECT list_name FROM user_lists WHERE username = ? AND removed_at IS NULL`
read of `_update_user_lists` (lines 206-211), collected into a set
(duplicates collapsed, first occurrence kept). -/
def openListNames (db : DB) (username : String) : List String :=
  ((db.user_lists.filter (fun r =>
      r.username = username ∧ r.removed_at = none)).map (fun r => r.list_name)).dedup

/-- The `UPDATE users SET ...` / `INSERT INTO users ...` statement of
`upsert_user` (lines 173-190), chosen by the existence check against the
pre-transaction state `db0`. -/
def usersStmt (db0 : DB) (username : String) (price : Rat)
    (subscription_status : String) (run_id scraped_at : Nat) : DB → DB :=
  match findUser db0 username with
  | some _ => fun db =>
    { db with users := db.users.map (fun r =>
        if r.username = username then
          { r with current_price := price, subscription_status := subscription_status,
                   last_seen := scraped_at, last_scraped_run_id := run_id }
        else r) }
  | none => fun db =>
    { db with users :=
        db.users ++ [⟨username, price, subscription_status, scraped_at, scraped_at, run_id⟩] }

/-- The unconditional `INSERT INTO price_history ...` statement of
`upsert_user` (lines 193-197). -/
def phStmt (username : String) (price : Rat) (subscription_status : String)
    (run_id scraped_at : Nat) : DB → DB := fun db =>
  { db with price_history := db.price_history ++
      [⟨db.price_history.length + 1, username, price, subscription_status,
        scraped_at, run_id⟩] }

/-- One `INSERT INTO user_lists ...` statement of `_update_user_lists`
(lines 216-220), opening a membership. -/
def insertListStmt (username list_name : String) (run_id now : Nat) : DB → DB := fun db =>
  { db with user_lists := db.user_lists ++
      [⟨db.user_lists.length + 1, username, list_name, now, none, run_id⟩] }

/-- One `UPDATE user_lists SET removed_at = ...` statement of
`_update_user_lists` (lines 224-229), closing every open membership of the
user in that list. -/
def closeListStmt (username list_name : String) (now : Nat) : DB → DB := fun db =>
  { db with user_lists := db.user_lists.map (fun r =>
      if r.username = username ∧ r.list_name = list_name ∧ r.removed_at = none then
        { r with removed_at := some now }
      else r) }

/-- The sequence of mutating SQL statements one `upsert_user` transaction
executes (lines 164-229), in order: users write, observation insert, one
insert per added list, one close per dropped list. The reads deciding the
statement list see the pre-transaction state `db0` (no earlier statement of
the same transaction writes the rows they read). Python iterates the sets
`to_add`/`to_remove` in unspecified order; the embedding fixes first-occurrence
order, which only influences fresh row ids. -/
def upsert_stmts (db0 : DB) (username : String) (price : Rat)
    (subscription_status : String) (lists : List String)
    (run_id scraped_at : Nat) : List (DB → DB) :=
  let existing := openListNames db0 username
  let to_add := lists.dedup.filter (fun l => l ∉ existing)
  let to_remove := existing.filter (fun l => l ∉ lists)
  usersStmt db0 username price subscription_status run_id scraped_at ::
  phStmt username price subscription_status run_id scraped_at ::
  (to_add.map (fun l => insertListStmt username l run_id scraped_at) ++
   to_remove.map (fun l => closeListStmt username l scraped_at))

/-- Embedding of a successful `Database.upsert_user` call (lines 149-229):
all statements of the transaction applied in order, then committed. -/
def upsert_user (db : DB) (username : String) (price : Rat)
    (subscription_status : String) (lists : List String)
    (run_id scraped_at : Nat) : DB :=
  (upsert_stmts db username price subscription_status lists run_id scraped_at).foldl
    (fun d f => f d) db

/-- Embedding of a `Database.upsert_user` call through the
`Database.transaction` context manager (lines 108-118) with failure
injection: `failAt = some k` means the `k`-th statement (1-based) of the
transaction raises when executed. On a raise, `transaction` rolls the
connection back to the pre-transaction snapshot and re-raises, so the caller
observes `(db, true)`; otherwise the transaction commits all statements and
the caller observes the new state and `false`. -/
def upsert_user_conn (failAt : Option Nat) (db : DB) (username : String)
    (price : Rat) (subscription_status : String) (lists : List String)
    (run_id scraped_at : Nat) : DB × Bool :=
  let stmts := upsert_stmts db username price subscription_status lists run_id scraped_at
  match failAt with
  | some k =>
    if k ≤ stmts.length then (db, true)
    else (stmts.foldl (fun d f => f d) db, false)
  | none => (stmts.foldl (fun d f => f d) db, false)

/-! ## Store queries used by the claims -/

/-- Observations of one username, the join rows of
`get_historical_low_prices` (line 274). -/
def observationsOf (db : DB) (username : String) : List PriceHistoryRow :=
  db.price_history.filter (fun r => r.username = username)

/-- The `COUNT(DISTINCT ph.scrape_run_id)` aggregate of
`get_historical_low_prices` (line 272). -/
def distinctRunCount (db : DB) (username : String) : Nat :=
  ((observationsOf db username).map (fun r => r.scrape_run_id)).dedup.length

/-- The `MIN(ph.price)` aggregate of `get_historical_low_prices`
(line 271); `none` when the user has no observation (such a user is dropped
by the inner join). -/
def minObservedPrice (db : DB) (username : String) : Option Rat :=
  match (observationsOf db username).map (fun r => r.price) with
  | [] => none
  | p :: ps => some (ps.foldl min p)

/-- Embedding of `Database.get_historical_low_prices` (lines 264-281),
reduced to the usernames of the result set (the `ORDER BY` only permutes
rows). -/
def get_historical_low_prices (db : DB) : List String :=
  (db.users.filter (fun u =>
      u.subscription_status = "NO_SUBSCRIPTION" ∧
      observationsOf db u.username ≠ [] ∧
      minObservedPrice db u.username = some u.current_price ∧
      1 < distinctRunCount db u.username)).map (fun u => u.username)

/-- One row of the current-state view with active lists. -/
structure UserWithLists where
  username : String
  current_price : Rat
  subscription_status : String
  lists : List String
deriving DecidableEq

/-- Embedding of `Database.get_users_with_lists` with `active_only = True`
(lines 283-306): every user joined with the names of their open
memberships. -/
def get_users_with_lists (db : DB) : List UserWithLists :=
  db.users.map (fun u =>
    ⟨u.username, u.current_price, u.subscription_status,
     (db.user_lists.filter (fun r =>
        r.username = u.username ∧ r.removed_at = none)).map (fun r => r.list_name)⟩)

/-! ## The Page Sampler and Scroll-and-Collect Loop (src/list_scraper.py)

The browser is an external collaborator: one `IterEvent` per loop iteration
records what the page reports to the code (the watchdog verdict and the
visible user items). Past the end of the event list the page is stable: no
error and no further items. Store failures are injected by an oracle
`storeFails` indexed by the run's upsert call counter. -/

/-- The text content the page exposes for one visible user item: the
username element text, the whitespace-normalized price label as produced by
`get_price_text` (lines 254-263; the empty string models a missing price
element), and the raw list badge texts. -/
structure Item where
  username : String
  priceText : String
  lists : List String
deriving DecidableEq

/-- One iteration of the loop as seen from the code:
`pageErrorUnrecoverable` is the value `check_for_page_errors` returns
(lines 298-331) and `items` the currently visible user elements. -/
structure IterEvent where
  pageErrorUnrecoverable : Bool
  items : List Item
deriving DecidableEq

/-- Insertion sort on strings, modelling Python `list.sort()` on the list
badge texts (stable, lexicographic by code point). -/
def insertSorted (x : String) : List String → List String
  | [] => [x]
  | y :: ys => if x ≤ y then x :: y :: ys else y :: insertSorted x ys

/-- Sort a list of strings ascending. -/
def sortStrings (l : List String) : List String :=
  l.foldr insertSorted []

/-- Embedding of `OnlyFansScraper.get_lists` (lines 333-338): all badge
texts except the literal placeholder `Lists`, sorted. -/
def get_lists (raw : List String) : List String :=
  sortStrings (raw.filter (fun t => t ≠ "Lists"))

/-- Embedding of `OnlyFansScraper.get_username` (lines 233-252) observed
through `scrape_info`: the stripped element text with a leading `@` sigil
removed; `none` when the stripped text is empty (the selector fallbacks all
see the same text here, so emptiness means the `NoSuchElementException`
that `scrape_info` turns into a skip). -/
def get_username (it : Item) : Option String :=
  let t := pyStrip it.username
  if t = "" then none
  else some (stripSigil t)

/-- Embedding of `OnlyFansScraper.get_new_user_elements` (lines 73-94):
keep the visible items whose cleaned username is nonempty and not yet in
the seen-set. -/
def get_new_user_elements (seen : List String) (items : List Item) : List Item :=
  items.filter (fun it =>
    let t := pyStrip it.username
    t ≠ "" ∧
      (let u := stripSigil t
       u ≠ "" ∧ u ∉ seen))

/-- A scraped record as built by `scrape_info`. The Python record's `price`
field is a string: `price = none` models the sentinel `"?"` of
`unknown_user_info`, `price = some q` models `str(Decimal)` output of
`standardize_price` (whose later `float()` re-parse is exact). -/
structure UserRecord where
  username : String
  subscription_status : String
  price : Option Rat
  lists : List String
deriving DecidableEq

/-- Embedding of `OnlyFansScraper.unknown_user_info` (lines 221-228). -/
def unknown_user_info (username : String) : UserRecord :=
  ⟨username, "?", none, []⟩

/-- Embedding of `OnlyFansScraper.scrape_info` (lines 184-219): `none` when
the username cannot be extracted; the unknown record when the price label is
absent or fails to parse; otherwise the parsed record. -/
def scrape_info (it : Item) : Option UserRecord :=
  match get_username it with
  | none => none
  | some username =>
    if username = "" then none
    else
      let price_element_text := it.priceText
      let lists_text := get_lists it.lists
      if price_element_text = "" then some (unknown_user_info username)
      else
        match get_offer price_element_text with
        | .error _ => some (unknown_user_info username)
        | .ok offer =>
          match get_price price_element_text offer with
          | .error _ => some (unknown_user_info username)
          | .ok price =>
            some ⟨username, get_subscription_status price_element_text,
                  some price, lists_text⟩

/-- Mutable state of one `scrape_list` call: the store connection, the
seen-set (`self.seen_users`, insertion order of first marking) and the
number of `upsert_user` calls issued so far in the run. -/
structure ScrapeState where
  db : DB
  seen : List String
  upsertCalls : Nat
deriving DecidableEq

/-- The collection phase of `write_to_database` (lines 155-162): scrape each
element, keep records whose username is unseen, marking it seen at once. -/
def collectNewUsers (seen : List String) : List Item → List String × List UserRecord
  | [] => (seen, [])
  | it :: rest =>
    match scrape_info it with
    | some info =>
      if info.username ∈ seen then collectNewUsers seen rest
      else
        let p := collectNewUsers (seen ++ [info.username]) rest
        (p.1, info :: p.2)
    | none => collectNewUsers seen rest

/-- The batch-write phase of `write_to_database` (lines 164-182): one
`upsert_user` per record — price `"?"` or unparsable mapped to `0.0` — with
the per-record `except Exception` swallowing a store failure (log and
continue). Returns the store and the updated upsert call counter. -/
def batchWrite (storeFails : Nat → Bool) (run_id now : Nat)
    (records : List UserRecord) (db : DB) (calls : Nat) : DB × Nat :=
  records.foldl (fun acc user =>
    let callIdx := acc.2 + 1
    let price_float := user.price.getD 0
    let failAt : Option Nat := if storeFails callIdx then some 1 else none
    let r := upsert_user_conn failAt acc.1 user.username price_float
      user.subscription_status user.lists run_id now
    (r.1, callIdx)) (db, calls)

/-- Embedding of `OnlyFansScraper.write_to_database` (lines 153-182). -/
def write_to_database (storeFails : Nat → Bool) (run_id now : Nat)
    (items : List Item) (st : ScrapeState) : ScrapeState :=
  let p := collectNewUsers st.seen items
  let q := batchWrite storeFails run_id now p.2 st.db st.upsertCalls
  ⟨q.1, p.1, q.2⟩

/-- The `while no_new_items_count < max_failures` loop of `scrape_list`
(lines 114-147), with `max_failures = 3`. Each iteration consumes one event
(a stable page past the event list). The Boolean result records whether the
loop exited through the page-error `break` (line 122), which also writes the
`error` completion (line 121). The structural `fuel` only bounds recursion;
`scrape_list` passes enough for the loop to reach its own exit (see
`scrapeLoop_fuel_stable`). -/
def scrapeLoop (storeFails : Nat → Bool) (run_id now : Nat) :
    Nat → List IterEvent → Nat → ScrapeState → ScrapeState × Bool
  | 0, _, _, st => (st, false)
  | fuel + 1, env, counter, st =>
    if 3 ≤ counter then (st, false)
    else
      match env with
      | [] => scrapeLoop storeFails run_id now fuel [] (counter + 1) st
      | e :: rest =>
        if e.pageErrorUnrecoverable then
          ({ st with db := complete_scrape_run st.db run_id st.seen.length "error" now },
           true)
        else
          let newElems := get_new_user_elements st.seen e.items
          if newElems.isEmpty then
            scrapeLoop storeFails run_id now fuel rest (counter + 1) st
          else
            scrapeLoop storeFails run_id now fuel rest 0
              (write_to_database storeFails run_id now newElems st)

/-- Result of one `scrape_list` call. -/
structure ScrapeResult where
  db : DB
  run_id : Nat
  seen : List String
deriving DecidableEq

/-- Embedding of `OnlyFansScraper.scrape_list` (lines 96-151): open the run,
run the loop, then the unconditional completion call of line 150 — note it
executes on both exit paths, including after the error `break`. -/
def scrape_list (storeFails : Nat → Bool) (db0 : DB) (list_id : String)
    (env : List IterEvent) (now : Nat) : ScrapeResult :=
  let p := start_scrape_run db0 list_id now
  let st := (scrapeLoop storeFails p.2 now (env.length + 3) env 0 ⟨p.1, [], 0⟩).1
  ⟨complete_scrape_run st.db p.2 st.seen.length "completed" now, p.2, st.seen⟩

/-- Status of the run with a given id, as a query on the store. -/
def runStatus (db : DB) (run_id : Nat) : Option String :=
  (db.scrape_runs.find? (fun r => r.id = run_id)).map (fun r => r.status)

/-- Recorded final user count of the run with a given id. -/
def runUserCount (db : DB) (run_id : Nat) : Option Nat :=
  (db.scrape_runs.find? (fun r => r.id = run_id)).map (fun r => r.user_count)

/-- Recorded start timestamp of the run with a given id. -/
def runStartedAt (db : DB) (run_id : Nat) : Option Nat :=
  (db.scrape_runs.find? (fun r => r.id = run_id)).map (fun r => r.started_at)

/-! ## CSV export and import (src/database.py lines 336-449, src/cli.py)

One CSV data row with the required columns. The `csv` module round-trips
each field verbatim (quoting is transparent), so a row is its field values.
The `price` field is `none` for an empty, `"?"` or unparsable price string —
every case `import_csv` maps to `0.0` — and `some q` for a decimal numeral,
whose `float()` parse is exact. -/
structure CsvRow where
  username : String
  price : Option Rat
  subscription_status : String
  lists : String
deriving DecidableEq

/-- Modelled from the spec: the flat tabular export with columns
`username, price, subscription_status, lists` (comma-joined active list
names) taken from the Store's current-state view. The source calls
`DatabaseAnalyser.export_csv` from the `export` CLI command
(src/cli.py lines 343-359), but no `export_csv` method exists anywhere in
the repository, so the writer itself is reconstructed from §6 of the spec on
top of the embedded `get_users_with_lists` view. -/
def export_csv (db : DB) : List CsvRow :=
  (get_users_with_lists db).map (fun u =>
    ⟨u.username, some u.current_price, u.subscription_status,
     joinComma u.lists⟩)

/-- The lists-column parse of `import_csv` (lines 425-426): strip the field;
empty means no lists, otherwise split on commas, strip each piece and drop
empty pieces. -/
def parseLists (lists_str : String) : List String :=
  let t := pyStrip lists_str
  if t = "" then []
  else ((splitComma t).map pyStrip).filter (fun l => l ≠ "")

/-- One row of the import loop of `import_csv` (lines 406-437): skip rows
with an empty username, default price `0.0`, default status
`NO_SUBSCRIPTION`, then `upsert_user` with the synthetic run id and
the import timestamp. Returns the store and the user-count increment. -/
def import_row (db : DB) (run_id scraped_at : Nat) (row : CsvRow) : DB × Nat :=
  let username := pyStrip row.username
  if username = "" then (db, 0)
  else
    let price : Rat := row.price.getD 0
    let status :=
      if pyStrip row.subscription_status = "" then "NO_SUBSCRIPTION"
      else pyStrip row.subscription_status
    (upsert_user db username price status (parseLists row.lists) run_id scraped_at, 1)

/-- Yearly leap rule of the proleptic Gregorian calendar used by
`datetime`. -/
def isLeapYear (y : Nat) : Bool :=
  (y % 4 = 0 ∧ y % 100 ≠ 0) ∨ y % 400 = 0

/-- Days in a month, for `datetime` constructor validity. -/
def daysInMonth (y m : Nat) : Nat :=
  if m = 2 then (if isLeapYear y then 29 else 28)
  else if m = 4 ∨ m = 6 ∨ m = 9 ∨ m = 11 then 30
  else 31

/-- Does `datetime(y, m, d)` construct without raising `ValueError`? -/
def validDate (y m d : Nat) : Bool :=
  1 ≤ y ∧ y ≤ 9999 ∧ 1 ≤ m ∧ m ≤ 12 ∧ 1 ≤ d ∧ d ≤ daysInMonth y m

/-- Encoding of the start-of-day `datetime(y, m, d)` as an abstract
timestamp tick. -/
def dateStamp (y m d : Nat) : Nat :=
  y * 10000 + m * 100 + d

/-- Two decimal digits as a number, when both characters are digits. -/
def digit2 (a b : Char) : Option Nat :=
  if a.isDigit ∧ b.isDigit then some ((a.toNat - 48) * 10 + (b.toNat - 48))
  else none

/-- Match the regex `(\d{4})-(\d{2})-(\d{2})` exactly at the head of the
character list, returning the year, month and day groups. -/
def matchDateAt : List Char → Option (Nat × Nat × Nat)
  | y1 :: y2 :: y3 :: y4 :: '-' :: m1 :: m2 :: '-' :: d1 :: d2 :: _ =>
    match digit2 y1 y2, digit2 y3 y4, digit2 m1 m2, digit2 d1 d2 with
    | some yh, some yl, some m, some d => some (yh * 100 + yl, m, d)
    | _, _, _, _ => none
  | _ => none

/-- Leftmost match of `(\d{4})-(\d{2})-(\d{2})`, as found by `re.search`. -/
def searchDate : List Char → Option (Nat × Nat × Nat)
  | [] => none
  | c :: rest =>
    match matchDateAt (c :: rest) with
    | some r => some r
    | none => searchDate rest

/-- Embedding of `Database._extract_date_from_filename` (lines 336-356) on
the filename stem: the first `YYYY-MM-DD` shaped group, `none` when absent
or when `datetime` rejects it (`ValueError`). -/
def extract_date_from_filename (stem : String) : Option Nat :=
  match searchDate stem.toList with
  | some (y, m, d) => if validDate y m d then some (dateStamp y m d) else none
  | none => none

/-- Embedding of `Database.import_csv` (lines 358-449) on an already-read
header-valid CSV: resolve the import timestamp (explicit argument, else
filename date, else the wall clock), open one synthetic run, upsert every
row, and close the run as `completed` with the imported user count.
Returns the store, the synthetic run id and the user count. -/
def import_csv (db : DB) (stem : String) (rows : List CsvRow) (list_id : String)
    (scrapedAtArg : Option Nat) (wall_clock : Nat) : DB × Nat × Nat :=
  let scraped_at :=
    match scrapedAtArg with
    | some t => t
    | none => (extract_date_from_filename stem).getD wall_clock
  let p := start_scrape_run db list_id scraped_at
  let q := rows.foldl (fun acc row =>
      let r := import_row acc.1 p.2 scraped_at row
      (r.1, acc.2 + r.2)) (p.1, 0)
  (complete_scrape_run q.1 p.2 q.2 "completed" wall_clock, p.2, q.2)

/-! ## Concrete fixtures used by counterexamples and witnesses -/

/-- A store-failure oracle that raises exactly on the second upsert call of
the run. -/
def storeFailSecond : Nat → Bool := fun n => n == 2

/-- A store that never fails. -/
def storeOk : Nat → Bool := fun _ => false

/-- A visible item with a plain recurring price label. -/
def exItemKnown : Item := ⟨"alice", "SUBSCRIBE $5 per month", ["paid", "Lists"]⟩

/-- A visible item whose price element is missing. -/
def exItemNoPrice : Item := ⟨"bob", "", ["vip"]⟩

/-- An iteration event exposing no new items. -/
def exQuietIter : IterEvent := ⟨false, []⟩

/-- A visible item with a genuinely free price label. -/
def exItemFree : Item := ⟨"carol", "Subscribe FOR FREE", []⟩

/-- Store with one user `u` whose open memberships are `A` and `B`
(fixture for the list-reconciliation scenario). -/
def exDbAB : DB :=
  ⟨[], [⟨"u", 5, "NO_SUBSCRIPTION", 1, 1, 1⟩], [],
   [⟨1, "u", "A", 1, none, 1⟩, ⟨2, "u", "B", 1, none, 1⟩]⟩

/-- Store where user `u` has two observations at price 8 inside one single
scrape run, with current price 8 (fixture for the historical-low query). -/
def exDbOneRun : DB :=
  ⟨[⟨1, "L", 1, some 2, 1, "completed"⟩],
   [⟨"u", 8, "NO_SUBSCRIPTION", 1, 1, 1⟩],
   [⟨1, "u", 8, "NO_SUBSCRIPTION", 1, 1⟩, ⟨2, "u", 8, "NO_SUBSCRIPTION", 1, 1⟩],
   []⟩

/-- Store where user `u` has the price sequence 10, 8, 8 over three runs and
current price 8. -/
def exDbLow : DB :=
  ⟨[], [⟨"u", 8, "NO_SUBSCRIPTION", 1, 3, 3⟩],
   [⟨1, "u", 10, "NO_SUBSCRIPTION", 1, 1⟩, ⟨2, "u", 8, "NO_SUBSCRIPTION", 2, 2⟩,
    ⟨3, "u", 8, "NO_SUBSCRIPTION", 3, 3⟩],
   []⟩

/-- Store where user `u` has the price sequence 10, 8, 8, 12 over four runs
and current price 12. -/
def exDbRisen : DB :=
  ⟨[], [⟨"u", 12, "NO_SUBSCRIPTION", 1, 4, 4⟩],
   [⟨1, "u", 10, "NO_SUBSCRIPTION", 1, 1⟩, ⟨2, "u", 8, "NO_SUBSCRIPTION", 2, 2⟩,
    ⟨3, "u", 8, "NO_SUBSCRIPTION", 3, 3⟩, ⟨4, "u", 12, "NO_SUBSCRIPTION", 4, 4⟩],
   []⟩

/-- Store with a single user whose one open list name contains a comma
(fixture for the CSV round trip). -/
def exDbComma : DB :=
  ⟨[⟨1, "L", 1, some 2, 1, "completed"⟩],
   [⟨"u", 5, "SUBSCRIBED", 1, 1, 1⟩], [],
   [⟨1, "u", "a,b", 1, none, 1⟩]⟩

/-- Store with a single user and two comma-free open list names (fixture
for the CSV round trip). -/
def exDbClean : DB :=
  ⟨[⟨1, "L", 1, some 2, 1, "completed"⟩],
   [⟨"u", 5, "SUBSCRIBED", 1, 1, 1⟩], [],
   [⟨1, "u", "a", 1, none, 1⟩, ⟨2, "u", "b", 1, none, 1⟩]⟩

/-- Open membership rows of one (username, list) pair: the subject of the
no-overlap invariant. -/
def openRowsFor (db : DB) (username list_name : String) : List UserListRow :=
  db.user_lists.filter (fun r =>
    r.username = username ∧ r.list_name = list_name ∧ r.removed_at = none)

/-- The no-overlap invariant of the ListMembership table: at most one open
row per (username, list) pair. -/
def OpenUnique (db : DB) : Prop :=
  ∀ u l, (openRowsFor db u l).length ≤ 1

deriving instance DecidableEq for Except

/-! ## Theorems -/

/-- Claim C2 names a code bug: when the Watchdog reports an unrecoverable
page error, `scrape_list` writes status `error` and breaks, but the
unconditional completion call after the loop (line 150) then overwrites the
same run with status `completed`. This theorem evaluates the embedding at
the failing input: a run whose first iteration hits an unrecoverable page
error. The loop itself exits through the error break having recorded
`error`, yet the status recorded by the full `scrape_list` call is
`completed`. -/
theorem claim_C2_bug :
    (scrapeLoop storeOk 1 7 4 [⟨true, []⟩] 0
        ⟨(start_scrape_run DB.empty "L" 7).1, [], 0⟩).2 = true ∧
    runStatus (scrapeLoop storeOk 1 7 4 [⟨true, []⟩] 0
        ⟨(start_scrape_run DB.empty "L" 7).1, [], 0⟩).1.db 1 = some "error" ∧
    runStatus (scrape_list storeOk DB.empty "L" [⟨true, []⟩] 7).db 1 =
      some "completed" := by
  refine ⟨rfl, rfl, rfl⟩

/-- Claim C4: offer classification is case-insensitive (it depends only on
the uppercased label), the day-bounded OFFER branch is suppressed whenever
`FREE` occurs in the label, and the fixed priority order yields the stated
classification table, with the classification error on an unrecognized
label. -/
theorem claim_C4 :
    (∀ s t : String, pyUpper s = pyUpper t → get_offer s = get_offer t) ∧
    (∀ s : String, strContains (pyUpper s) "FREE" = true →
      get_offer s ≠ .ok "OFFER") ∧
    get_offer "SUBSCRIBE $9.99 per month" = .ok "NO_OFFER" ∧
    get_offer "SUBSCRIBED renew Nov 1" = .ok "SUBSCRIBED" ∧
    get_offer "20% off for 30 days $7.99" = .ok "OFFER" ∧
    get_offer "FOR FREE" = .ok "FREE" ∧
    get_offer "FREE for 5 days" = .ok "FREE_TRIAL" ∧
    get_offer "Message me" = .error () := by
  refine ⟨?_, ?_, by decide, by decide, by decide, by decide, by decide, by decide⟩
  · intro s t h
    simp only [get_offer, h]
  · intro s h
    simp only [get_offer, h, Bool.not_true, Bool.and_false]
    repeat' split
    all_goals simp_all

/-- Witness for claim C4 at concrete inputs: a mixed-case free-trial label
classifies like its uppercase form, and a label containing `free` next to a
day count is not classified OFFER. -/
theorem claim_C4_witness :
    (pyUpper "free FOR 5 days" = pyUpper "FREE for 5 DAYS" ∧
     get_offer "free FOR 5 days" = get_offer "FREE for 5 DAYS") ∧
    (strContains (pyUpper "Free Offer 30 days") "FREE" = true ∧
     get_offer "Free Offer 30 days" ≠ .ok "OFFER") :=
  ⟨⟨by decide, claim_C4.1 "free FOR 5 days" "FREE for 5 DAYS" (by decide)⟩,
   ⟨by decide, claim_C4.2.1 "Free Offer 30 days" (by decide)⟩⟩

/-- Claim C5: price extraction is zero for SUBSCRIBED, FREE_TRIAL and FREE;
the second whitespace token's amount for NO_OFFER; the fourth-from-last
token's amount for OFFER; and it raises the price error when the label has
fewer tokens than the offer kind requires or when no numeric amount is
recoverable from the selected token. -/
theorem claim_C5 :
    (∀ s : String, get_price s "SUBSCRIBED" = .ok 0 ∧
      get_price s "FREE_TRIAL" = .ok 0 ∧ get_price s "FREE" = .ok 0) ∧
    (∀ s p, (pySplit s).get? 1 = some p →
      get_price s "NO_OFFER" = standardize_price p) ∧
    (∀ s, (pySplit s).length < 2 → get_price s "NO_OFFER" = .error ()) ∧
    (∀ s p, (pySplit s).get? ((pySplit s).length - 4) = some p →
      4 ≤ (pySplit s).length → get_price s "OFFER" = standardize_price p) ∧
    (∀ s, (pySplit s).length < 4 → get_price s "OFFER" = .error ()) ∧
    (∀ tok, priceAmount tok = none → standardize_price tok = .error ()) ∧
    (∀ tok q, priceAmount tok = some q → standardize_price tok = .ok q) := by
  refine ⟨?_, ?_, ?_, ?_, ?_, ?_, ?_⟩
  · intro s
    refine ⟨?_, ?_, ?_⟩ <;>
      · simp only [get_price]
        rw [if_pos (by simp)]
        decide
  · intro s p h
    have hlen : 1 < (pySplit s).length := (List.get?_eq_some.mp h).1
    simp only [get_price, h]
    rw [if_neg (by simp), if_pos trivial, if_neg (by omega)]
  · intro s h
    simp only [get_price]
    rw [if_neg (by simp), if_pos trivial, if_pos h]
  · intro s p h hlen
    simp only [get_price, h]
    rw [if_neg (by simp), if_neg (by simp), if_pos trivial, if_neg (by omega)]
  · intro s h
    simp only [get_price]
    rw [if_neg (by simp), if_neg (by simp), if_pos trivial, if_pos h]
  · intro tok h
    simp [standardize_price, h]
  · intro tok q h
    simp [standardize_price, h]

/-- Witness for claim C5 at concrete labels: the second token of a
`per month` label, a too-short NO_OFFER label, the fourth-from-last token
of a seven-token OFFER label, a too-short OFFER label, a digitless token
and a parsable token. -/
theorem claim_C5_witness :
    get_price "anything at all" "SUBSCRIBED" = .ok 0 ∧
    ((pySplit "SUBSCRIBE $9.99 per month").get? 1 = some "$9.99" ∧
      get_price "SUBSCRIBE $9.99 per month" "NO_OFFER" = standardize_price "$9.99") ∧
    ((pySplit "Subscribe").length < 2 ∧
      get_price "Subscribe" "NO_OFFER" = .error ()) ∧
    ((pySplit "save $1 off $7.99 for 30 days").get?
        ((pySplit "save $1 off $7.99 for 30 days").length - 4) = some "$7.99" ∧
      get_price "save $1 off $7.99 for 30 days" "OFFER" = standardize_price "$7.99") ∧
    ((pySplit "a b c").length < 4 ∧ get_price "a b c" "OFFER" = .error ()) ∧
    (priceAmount "for" = none ∧ standardize_price "for" = .error ()) ∧
    (priceAmount "$9.99" = some (Rat.divInt 999 100) ∧
      standardize_price "$9.99" = .ok (Rat.divInt 999 100)) :=
  ⟨(claim_C5.1 "anything at all").1,
   ⟨by decide, claim_C5.2.1 "SUBSCRIBE $9.99 per month" "$9.99" (by decide)⟩,
   ⟨by decide, claim_C5.2.2.1 "Subscribe" (by decide)⟩,
   ⟨by decide, claim_C5.2.2.2.1 "save $1 off $7.99 for 30 days" "$7.99"
      (by decide) (by decide)⟩,
   ⟨by decide, claim_C5.2.2.2.2.1 "a b c" (by decide)⟩,
   ⟨by decide, claim_C5.2.2.2.2.2.1 "for" (by decide)⟩,
   ⟨by decide, claim_C5.2.2.2.2.2.2 "$9.99" (Rat.divInt 999 100) (by decide)⟩⟩

/-! ### Generic helper lemmas about the statement fold and row lookups -/

/-- A projection preserved by every statement of a list is preserved by
folding the list. -/
theorem foldl_preserve {β : Type} (proj : DB → β) (stmts : List (DB → DB))
    (h : ∀ f ∈ stmts, ∀ d : DB, proj (f d) = proj d) :
    ∀ db : DB, proj (stmts.foldl (fun d f => f d) db) = proj db := by
  induction stmts with
  | nil => intro db; rfl
  | cons f fs ih =>
    intro db
    rw [List.foldl_cons, ih (fun g hg d => h g (List.mem_cons_of_mem f hg) d),
      h f (List.mem_cons_self f fs)]

/-- Finding a username in a row list mapped by a username-preserving
function finds the image of the original hit. -/
theorem findUser_map (l : List UserRow) (u : String) (f : UserRow → UserRow)
    (hf : ∀ r, (f r).username = r.username) :
    (l.map f).find? (fun r => r.username = u) =
      (l.find? (fun r => r.username = u)).map f := by
  induction l with
  | nil => rfl
  | cons r rs ih =>
    by_cases hr : r.username = u
    · rw [List.map_cons, List.find?_cons_of_pos _ (by simp [hf, hr]),
        List.find?_cons_of_pos _ (by simp [hr])]
      rfl
    · rw [List.map_cons, List.find?_cons_of_neg _ (by simp [hf, hr]),
        List.find?_cons_of_neg _ (by simp [hr]), ih]

/-- Every statement of an upsert transaction leaves `scrape_runs`
untouched. -/
theorem upsert_stmts_runs (db0 : DB) (u : String) (p : Rat) (s : String)
    (ls : List String) (rid t : Nat) :
    ∀ f ∈ upsert_stmts db0 u p s ls rid t, ∀ d : DB,
      (f d).scrape_runs = d.scrape_runs := by
  intro f hf d
  simp only [upsert_stmts, List.mem_cons, List.mem_append, List.mem_map] at hf
  rcases hf with h | h | ⟨l, _, h⟩ | ⟨l, _, h⟩
  · subst h
    unfold usersStmt
    cases findUser db0 u <;> rfl
  · subst h; rfl
  · subst h; rfl
  · subst h; rfl

/-- A committed upsert leaves the `scrape_runs` table untouched. -/
theorem upsert_user_runs (db : DB) (u : String) (p : Rat) (s : String)
    (ls : List String) (rid t : Nat) :
    (upsert_user db u p s ls rid t).scrape_runs = db.scrape_runs :=
  foldl_preserve (fun d => d.scrape_runs) _ (upsert_stmts_runs db u p s ls rid t) db

/-- An upsert through the transaction wrapper leaves `scrape_runs`
untouched on both outcomes. -/
theorem upsert_user_conn_runs (failAt : Option Nat) (db : DB) (u : String)
    (p : Rat) (s : String) (ls : List String) (rid t : Nat) :
    (upsert_user_conn failAt db u p s ls rid t).1.scrape_runs = db.scrape_runs := by
  unfold upsert_user_conn
  cases failAt with
  | none => exact foldl_preserve (fun d => d.scrape_runs) _ (upsert_stmts_runs db u p s ls rid t) db
  | some k =>
    by_cases hk : k ≤ (upsert_stmts db u p s ls rid t).length
    · simp [hk]
    · simp only [hk, if_false]
      exact foldl_preserve (fun d => d.scrape_runs) _ (upsert_stmts_runs db u p s ls rid t) db

/-- The batch-write phase never touches `scrape_runs`. -/
theorem batchWrite_runs (sf : Nat → Bool) (rid now : Nat) :
    ∀ (records : List UserRecord) (db : DB) (calls : Nat),
      (batchWrite sf rid now records db calls).1.scrape_runs = db.scrape_runs := by
  intro records
  induction records with
  | nil => intro db calls; rfl
  | cons rec recs ih =>
    intro db calls
    show (batchWrite sf rid now recs _ _).1.scrape_runs = _
    rw [ih]
    exact upsert_user_conn_runs _ _ _ _ _ _ _ _

/-- `write_to_database` never touches `scrape_runs`. -/
theorem write_to_database_runs (sf : Nat → Bool) (rid now : Nat)
    (items : List Item) (st : ScrapeState) :
    (write_to_database sf rid now items st).db.scrape_runs = st.db.scrape_runs :=
  batchWrite_runs sf rid now _ st.db st.upsertCalls

/-- Completing a run rewrites statuses but keeps every run id in place. -/
theorem complete_run_exists (db : DB) (rid cnt t : Nat) (s : String) (i : Nat)
    (h : ∃ r ∈ db.scrape_runs, r.id = i) :
    ∃ r ∈ (complete_scrape_run db rid cnt s t).scrape_runs, r.id = i := by
  rcases h with ⟨r, hr, hid⟩
  refine ⟨_, List.mem_map_of_mem _ hr, ?_⟩
  split <;> exact hid

/-- List-level core of the completion lemmas: after the completion map,
looking the id up finds a row carrying the written fields. -/
theorem find?_complete (rid cnt t : Nat) (s : String) :
    ∀ l : List ScrapeRunRow, (∃ r ∈ l, r.id = rid) →
      ∃ r0, (l.map (fun r =>
          if r.id = rid then
            { r with completed_at := some t, user_count := cnt, status := s }
          else r)).find? (fun r => r.id = rid) = some r0 ∧
        r0.status = s ∧ r0.user_count = cnt ∧ r0.completed_at = some t := by
  intro l
  induction l with
  | nil => rintro ⟨r, hr, _⟩; simp at hr
  | cons r rs ih =>
    intro h
    by_cases hrid : r.id = rid
    · refine ⟨{ r with completed_at := some t, user_count := cnt, status := s }, ?_, rfl, rfl, rfl⟩
      rw [List.map_cons]
      rw [if_pos hrid]
      exact List.find?_cons_of_pos _ (by simp [hrid])
    · rw [List.map_cons, if_neg hrid, List.find?_cons_of_neg _ (by simp [hrid])]
      apply ih
      rcases h with ⟨r2, hr2, hid2⟩
      rcases List.mem_cons.mp hr2 with h1 | h1
      · exact absurd (h1 ▸ hid2) hrid
      · exact ⟨r2, h1, hid2⟩

/-- After completing run `rid` with status `s`, looking `rid` up yields
status `s`, provided some row carries the id. -/
theorem runStatus_complete (db : DB) (rid cnt t : Nat) (s : String)
    (h : ∃ r ∈ db.scrape_runs, r.id = rid) :
    runStatus (complete_scrape_run db rid cnt s t) rid = some s := by
  obtain ⟨r0, hf, hs, _, _⟩ := find?_complete rid cnt t s db.scrape_runs h
  unfold runStatus complete_scrape_run
  rw [hf]
  simp [hs]

/-- After completing run `rid` with count `cnt`, looking `rid` up yields
count `cnt`, provided some row carries the id. -/
theorem runUserCount_complete (db : DB) (rid cnt t : Nat) (s : String)
    (h : ∃ r ∈ db.scrape_runs, r.id = rid) :
    runUserCount (complete_scrape_run db rid cnt s t) rid = some cnt := by
  obtain ⟨r0, hf, _, hc, _⟩ := find?_complete rid cnt t s db.scrape_runs h
  unfold runUserCount complete_scrape_run
  rw [hf]
  simp [hc]

/-- The loop preserves the presence of the run row it works on. -/
theorem scrapeLoop_run_exists (sf : Nat → Bool) (rid now : Nat) (i : Nat) :
    ∀ (fuel : Nat) (env : List IterEvent) (counter : Nat) (st : ScrapeState),
      (∃ r ∈ st.db.scrape_runs, r.id = i) →
      ∃ r ∈ (scrapeLoop sf rid now fuel env counter st).1.db.scrape_runs, r.id = i := by
  intro fuel
  induction fuel with
  | zero => intro env counter st h; exact h
  | succ fuel ih =>
    intro env counter st h
    unfold scrapeLoop
    by_cases hc : 3 ≤ counter
    · simpa [hc] using h
    · simp only [hc, if_false]
      match env with
      | [] => exact ih [] (counter + 1) st h
      | e :: rest =>
        by_cases he : e.pageErrorUnrecoverable
        · simpa [he] using complete_run_exists st.db rid st.seen.length now "error" i h
        · simp only [he, if_false, Bool.false_eq_true]
          by_cases hn : (get_new_user_elements st.seen e.items).isEmpty
          · simpa [hn] using ih rest (counter + 1) st h
          · simp only [hn, if_false, Bool.false_eq_true]
            refine ih rest 0 _ ?_
            rw [write_to_database_runs]
            exact h

/-- Counterexample to claim C1: the History Store raises on the 2nd upsert
call of the run (`storeFailSecond`), yet the ScrapeRun never reaches status
`failed`. The failed upsert is real — `bob` is marked seen but his
observation was rolled back, so only `alice` reaches the ledger — and the
call returns normally (the exception is swallowed inside
`write_to_database`), closing the run as `completed`; no run row ever
carries status `failed`. -/
theorem claim_C1_counterexample :
    ((scrape_list storeFailSecond DB.empty "L"
        [⟨false, [exItemKnown, exItemNoPrice]⟩] 7).db.price_history.map
          (fun o => o.username) = ["alice"] ∧
      (scrape_list storeFailSecond DB.empty "L"
        [⟨false, [exItemKnown, exItemNoPrice]⟩] 7).seen = ["alice", "bob"]) ∧
    runStatus (scrape_list storeFailSecond DB.empty "L"
        [⟨false, [exItemKnown, exItemNoPrice]⟩] 7).db
      (scrape_list storeFailSecond DB.empty "L"
        [⟨false, [exItemKnown, exItemNoPrice]⟩] 7).run_id = some "completed" ∧
    ∀ row ∈ (scrape_list storeFailSecond DB.empty "L"
        [⟨false, [exItemKnown, exItemNoPrice]⟩] 7).db.scrape_runs,
      row.status ≠ "failed" := by
  decide

/-- Claim C1 amended: a Store exception during an upsert is caught and
logged inside `write_to_database` and never surfaces to the caller of
`scrape_list`; on every modelled execution — any store-failure pattern, any
page behaviour — `scrape_list` returns normally and closes its ScrapeRun
with the terminal status `completed` (even an error exit is overwritten by
the unconditional completion call), so the run is left neither `running`
nor `failed`. -/
theorem claim_C1 (sf : Nat → Bool) (db0 : DB) (lid : String)
    (env : List IterEvent) (now : Nat) :
    runStatus (scrape_list sf db0 lid env now).db
      (scrape_list sf db0 lid env now).run_id = some "completed" ∧
    runStatus (scrape_list sf db0 lid env now).db
      (scrape_list sf db0 lid env now).run_id ≠ some "running" ∧
    runStatus (scrape_list sf db0 lid env now).db
      (scrape_list sf db0 lid env now).run_id ≠ some "failed" := by
  have h : runStatus (scrape_list sf db0 lid env now).db
      (scrape_list sf db0 lid env now).run_id = some "completed" := by
    simp only [scrape_list]
    apply runStatus_complete
    apply scrapeLoop_run_exists
    exact ⟨_, List.mem_append_right _ (List.mem_singleton_self _), rfl⟩
  exact ⟨h, by rw [h]; simp, by rw [h]; simp⟩

/-- The collection phase only ever adds a username that was not yet seen,
so it preserves distinctness of the seen-set. -/
theorem collectNewUsers_nodup :
    ∀ (items : List Item) (seen : List String), seen.Nodup →
      (collectNewUsers seen items).1.Nodup := by
  intro items
  induction items with
  | nil => intro seen h; exact h
  | cons it rest ih =>
    intro seen h
    unfold collectNewUsers
    cases scrape_info it with
    | none => exact ih seen h
    | some info =>
      by_cases hm : info.username ∈ seen
      · simpa [hm] using ih seen h
      · simp only [hm, if_false]
        exact ih (seen ++ [info.username]) (by simp [List.nodup_append, h, hm])

/-- The loop preserves distinctness of the seen-set. -/
theorem scrapeLoop_nodup (sf : Nat → Bool) (rid now : Nat) :
    ∀ (fuel : Nat) (env : List IterEvent) (counter : Nat) (st : ScrapeState),
      st.seen.Nodup → (scrapeLoop sf rid now fuel env counter st).1.seen.Nodup := by
  intro fuel
  induction fuel with
  | zero => intro env counter st h; exact h
  | succ fuel ih =>
    intro env counter st h
    unfold scrapeLoop
    by_cases hc : 3 ≤ counter
    · simpa [hc] using h
    · simp only [hc, if_false]
      match env with
      | [] => exact ih [] (counter + 1) st h
      | e :: rest =>
        by_cases he : e.pageErrorUnrecoverable
        · simpa [he] using h
        · simp only [he, if_false, Bool.false_eq_true]
          by_cases hn : (get_new_user_elements st.seen e.items).isEmpty
          · simpa [hn] using ih rest (counter + 1) st h
          · simp only [hn, if_false, Bool.false_eq_true]
            exact ih rest 0 _ (collectNewUsers_nodup _ st.seen h)

/-- When no iteration reports an unrecoverable page error, the loop never
takes the error exit: it ends by exhaustion. -/
theorem scrapeLoop_no_error (sf : Nat → Bool) (rid now : Nat) :
    ∀ (fuel : Nat) (env : List IterEvent) (counter : Nat) (st : ScrapeState),
      (∀ e ∈ env, e.pageErrorUnrecoverable = false) →
      (scrapeLoop sf rid now fuel env counter st).2 = false := by
  intro fuel
  induction fuel with
  | zero => intro env counter st _; rfl
  | succ fuel ih =>
    intro env counter st h
    unfold scrapeLoop
    by_cases hc : 3 ≤ counter
    · simp [hc]
    · simp only [hc, if_false]
      match env with
      | [] => exact ih [] (counter + 1) st (by simp)
      | e :: rest =>
        have he : e.pageErrorUnrecoverable = false := h e (List.mem_cons_self e rest)
        simp only [he, Bool.false_eq_true, if_false]
        have hrest : ∀ x ∈ rest, x.pageErrorUnrecoverable = false :=
          fun x hx => h x (List.mem_cons_of_mem e hx)
        by_cases hn : (get_new_user_elements st.seen e.items).isEmpty
        · simpa [hn] using ih rest (counter + 1) st hrest
        · simp only [hn, if_false, Bool.false_eq_true]
          exact ih rest 0 _ hrest

/-- Claim C3: the exhaustion policy. In general, every run whose
iterations report no page error exits through exhaustion (never the error
break), its seen-set holds pairwise-distinct identities, and the recorded
final count equals the size of the seen-set. Concretely, a source yielding
no new items for two iterations and then one new item does not exhaust the
run (the run ends having seen that item, final count 1), while three
consecutive zero-yield iterations exhaust it before a later item can be
reached (final count 0). -/
theorem claim_C3 :
    (∀ (sf : Nat → Bool) (db0 : DB) (lid : String) (env : List IterEvent) (now : Nat),
      (∀ e ∈ env, e.pageErrorUnrecoverable = false) →
      (scrapeLoop sf (start_scrape_run db0 lid now).2 now (env.length + 3) env 0
          ⟨(start_scrape_run db0 lid now).1, [], 0⟩).2 = false ∧
      (scrape_list sf db0 lid env now).seen.Nodup ∧
      runUserCount (scrape_list sf db0 lid env now).db
          (scrape_list sf db0 lid env now).run_id =
        some (scrape_list sf db0 lid env now).seen.length ∧
      runStatus (scrape_list sf db0 lid env now).db
          (scrape_list sf db0 lid env now).run_id = some "completed") ∧
    ((scrape_list storeOk DB.empty "L"
        [exQuietIter, exQuietIter, ⟨false, [exItemKnown]⟩] 7).seen = ["alice"] ∧
      runUserCount (scrape_list storeOk DB.empty "L"
          [exQuietIter, exQuietIter, ⟨false, [exItemKnown]⟩] 7).db
        (scrape_list storeOk DB.empty "L"
          [exQuietIter, exQuietIter, ⟨false, [exItemKnown]⟩] 7).run_id = some 1) ∧
    ((scrape_list storeOk DB.empty "L"
        [exQuietIter, exQuietIter, exQuietIter, ⟨false, [exItemKnown]⟩] 7).seen = [] ∧
      runUserCount (scrape_list storeOk DB.empty "L"
          [exQuietIter, exQuietIter, exQuietIter, ⟨false, [exItemKnown]⟩] 7).db
        (scrape_list storeOk DB.empty "L"
          [exQuietIter, exQuietIter, exQuietIter, ⟨false, [exItemKnown]⟩] 7).run_id =
        some 0) := by
  refine ⟨?_, by decide, by decide⟩
  intro sf db0 lid env now herr
  have hex : ∃ r ∈ (scrapeLoop sf (start_scrape_run db0 lid now).2 now
      (env.length + 3) env 0
      ⟨(start_scrape_run db0 lid now).1, [], 0⟩).1.db.scrape_runs,
      r.id = (start_scrape_run db0 lid now).2 := by
    apply scrapeLoop_run_exists
    exact ⟨_, List.mem_append_right _ (List.mem_singleton_self _), rfl⟩
  refine ⟨scrapeLoop_no_error sf _ now _ env 0 _ herr, ?_, ?_, ?_⟩
  · exact scrapeLoop_nodup sf _ now _ env 0 _ List.nodup_nil
  · simp only [scrape_list]
    exact runUserCount_complete _ _ _ _ _ hex
  · simp only [scrape_list]
    exact runStatus_complete _ _ _ _ _ hex

/-- Witness for claim C3: the general exhaustion statement applied to the
concrete three-event error-free environment. -/
theorem claim_C3_witness :
    (∀ e ∈ [exQuietIter, exQuietIter, IterEvent.mk false [exItemKnown]],
      e.pageErrorUnrecoverable = false) ∧
    runStatus (scrape_list storeOk DB.empty "L"
        [exQuietIter, exQuietIter, ⟨false, [exItemKnown]⟩] 7).db
      (scrape_list storeOk DB.empty "L"
        [exQuietIter, exQuietIter, ⟨false, [exItemKnown]⟩] 7).run_id =
      some "completed" :=
  ⟨by decide,
   (claim_C3.1 storeOk DB.empty "L"
      [exQuietIter, exQuietIter, ⟨false, [exItemKnown]⟩] 7 (by decide)).2.2.2⟩

/-- All statements of an upsert transaction after the users write leave the
`users` table untouched, so the committed `users` table is the one produced
by the users statement alone. -/
theorem upsert_user_users (db : DB) (u : String) (p : Rat) (s : String)
    (ls : List String) (rid t : Nat) :
    (upsert_user db u p s ls rid t).users = (usersStmt db u p s rid t db).users := by
  show ((upsert_stmts db u p s ls rid t).foldl (fun d f => f d) db).users = _
  unfold upsert_stmts
  rw [List.foldl_cons]
  apply foldl_preserve (fun d => d.users)
  intro f hf d
  simp only [List.mem_cons, List.mem_append, List.mem_map] at hf
  rcases hf with h | ⟨l, _, h⟩ | ⟨l, _, h⟩ <;> subst h <;> rfl

/-- A committed upsert appends exactly one Observation row, carrying the
upserted values. -/
theorem upsert_user_ph (db : DB) (u : String) (p : Rat) (s : String)
    (ls : List String) (rid t : Nat) :
    (upsert_user db u p s ls rid t).price_history =
      db.price_history ++ [⟨db.price_history.length + 1, u, p, s, t, rid⟩] := by
  show ((upsert_stmts db u p s ls rid t).foldl (fun d f => f d) db).price_history = _
  unfold upsert_stmts
  rw [List.foldl_cons, List.foldl_cons]
  have husers : (usersStmt db u p s rid t db).price_history = db.price_history := by
    unfold usersStmt
    cases findUser db u <;> rfl
  rw [foldl_preserve (fun d => d.price_history) _ ?side]
  case side =>
    intro f hf d
    simp only [List.mem_append, List.mem_map] at hf
    rcases hf with ⟨l, _, h⟩ | ⟨l, _, h⟩ <;> subst h <;> rfl
  simp only [phStmt, husers]

/-- After a committed upsert, the user's ProfileCurrentState row exists and
carries the upserted values; `first_seen` is preserved for an existing user
and initialized to the scrape time for a new one. -/
theorem findUser_upsert_self (db : DB) (u : String) (p : Rat) (s : String)
    (ls : List String) (rid t : Nat) :
    ∃ r2, findUser (upsert_user db u p s ls rid t) u = some r2 ∧
      r2.username = u ∧ r2.current_price = p ∧ r2.subscription_status = s ∧
      r2.last_seen = t ∧ r2.last_scraped_run_id = rid ∧
      (∀ r0, findUser db u = some r0 → r2.first_seen = r0.first_seen) ∧
      (findUser db u = none → r2.first_seen = t) := by
  have hu : findUser (upsert_user db u p s ls rid t) u =
      (usersStmt db u p s rid t db).users.find? (fun r => r.username = u) := by
    unfold findUser
    rw [upsert_user_users]
  cases hfind : findUser db u with
  | some r0 =>
    have hr0 : r0.username = u := by
      have := List.find?_some hfind
      exact of_decide_eq_true this
    refine ⟨{ r0 with current_price := p, subscription_status := s, last_seen := t, last_scraped_run_id := rid }, ?_, hr0, rfl, rfl, rfl, rfl, ?_, ?_⟩
    · rw [hu]
      unfold usersStmt
      rw [hfind]
      have := findUser_map db.users u
        (fun r => if r.username = u then { r with current_price := p, subscription_status := s, last_seen := t, last_scraped_run_id := rid } else r)
        (fun r => by dsimp only; split <;> rfl)
      rw [this]
      unfold findUser at hfind
      rw [hfind]
      simp [hr0]
    · intro r1 hr1
      cases hr1
      rfl
    · intro hn
      cases hn
  | none =>
    refine ⟨⟨u, p, s, t, t, rid⟩, ?_, rfl, rfl, rfl, rfl, rfl, ?_, fun _ => rfl⟩
    · rw [hu]
      unfold usersStmt
      rw [hfind]
      rw [List.find?_append]
      unfold findUser at hfind
      rw [hfind]
      simp
    · intro r1 hr1
      cases hr1

/-- Claim C7: every `upsert_user` call runs as one atomic transaction over
all four tables. A failure anywhere inside the call rolls the whole upsert
back — the caller-visible state is exactly the pre-call state, so no
Observation is ever committed without its ProfileCurrentState update and
ListMembership is never left half-reconciled — and the call raises exactly
when the injected failure hits one of the transaction's statements; a
successful call commits the full effect: the Observation row appended and
the ProfileCurrentState row updated in the same transaction. -/
theorem claim_C7 (failAt : Option Nat) (db : DB) (u : String) (p : Rat)
    (s : String) (ls : List String) (rid t : Nat) :
    ((upsert_user_conn failAt db u p s ls rid t).2 = true →
      (upsert_user_conn failAt db u p s ls rid t).1 = db) ∧
    ((upsert_user_conn failAt db u p s ls rid t).2 = true ↔
      ∃ k, failAt = some k ∧ k ≤ (upsert_stmts db u p s ls rid t).length) ∧
    ((upsert_user_conn failAt db u p s ls rid t).2 = false →
      (upsert_user_conn failAt db u p s ls rid t).1 = upsert_user db u p s ls rid t ∧
      (upsert_user_conn failAt db u p s ls rid t).1.price_history =
        db.price_history ++ [⟨db.price_history.length + 1, u, p, s, t, rid⟩] ∧
      ∃ r2, findUser (upsert_user_conn failAt db u p s ls rid t).1 u = some r2 ∧
        r2.current_price = p ∧ r2.subscription_status = s ∧
        r2.last_scraped_run_id = rid) := by
  obtain ⟨r2, hfind, _, hp, hs, _, hrid, _, _⟩ :=
    findUser_upsert_self db u p s ls rid t
  unfold upsert_user_conn
  cases failAt with
  | none =>
    dsimp only
    exact ⟨fun h => absurd h (by simp), by simp,
      fun _ => ⟨rfl, upsert_user_ph db u p s ls rid t, r2, hfind, hp, hs, hrid⟩⟩
  | some k =>
    by_cases hk : k ≤ (upsert_stmts db u p s ls rid t).length
    · simp only [hk, if_true]
      refine ⟨?_, ?_, ?_⟩ <;> simp [hk]
    · simp only [hk, if_false]
      exact ⟨fun h => absurd h (by simp), by simp [hk],
        fun _ => ⟨rfl, upsert_user_ph db u p s ls rid t, r2, hfind, hp, hs, hrid⟩⟩

/-- Witness for claim C7: applied to a failure on the first statement of an
upsert against the two-membership fixture, and to the successful variant of
the same call. -/
theorem claim_C7_witness :
    ((upsert_user_conn (some 1) exDbAB "u" 5 "NO_SUBSCRIPTION" ["B", "C"] 2 9).2 = true ∧
      (upsert_user_conn (some 1) exDbAB "u" 5 "NO_SUBSCRIPTION" ["B", "C"] 2 9).1 = exDbAB) ∧
    ((upsert_user_conn none exDbAB "u" 5 "NO_SUBSCRIPTION" ["B", "C"] 2 9).2 = false ∧
      (upsert_user_conn none exDbAB "u" 5 "NO_SUBSCRIPTION" ["B", "C"] 2 9).1 =
        upsert_user exDbAB "u" 5 "NO_SUBSCRIPTION" ["B", "C"] 2 9) :=
  ⟨⟨by decide,
    (claim_C7 (some 1) exDbAB "u" 5 "NO_SUBSCRIPTION" ["B", "C"] 2 9).1 (by decide)⟩,
   ⟨by decide,
    ((claim_C7 none exDbAB "u" 5 "NO_SUBSCRIPTION" ["B", "C"] 2 9).2.2 (by decide)).1⟩⟩

/-! ### Effect of the membership statements on open rows -/

/-- The users statement leaves the `user_lists` table untouched. -/
theorem usersStmt_user_lists (db0 : DB) (u : String) (p : Rat) (s : String)
    (rid t : Nat) (d : DB) :
    (usersStmt db0 u p s rid t d).user_lists = d.user_lists := by
  unfold usersStmt
  cases findUser db0 u <;> rfl

/-- A list name is among the user's open list names exactly when the pair
has at least one open row. -/
theorem mem_openListNames (db : DB) (u l : String) :
    l ∈ openListNames db u ↔ openRowsFor db u l ≠ [] := by
  unfold openListNames openRowsFor
  rw [List.mem_dedup]
  constructor
  · intro h
    rcases List.mem_map.mp h with ⟨r, hr, hname⟩
    rcases List.mem_filter.mp hr with ⟨hmem, hcond⟩
    intro hnil
    have : r ∈ db.user_lists.filter (fun r =>
        decide (r.username = u ∧ r.list_name = l ∧ r.removed_at = none)) := by
      apply List.mem_filter.mpr
      refine ⟨hmem, ?_⟩
      have hc := of_decide_eq_true hcond
      simp [hc.1, hc.2, hname]
    rw [hnil] at this
    simp at this
  · intro h
    rcases List.exists_mem_of_ne_nil _ h with ⟨r, hr⟩
    rcases List.mem_filter.mp hr with ⟨hmem, hcond⟩
    have hc := of_decide_eq_true hcond
    apply List.mem_map.mpr
    refine ⟨r, List.mem_filter.mpr ⟨hmem, by simp [hc.1, hc.2.2]⟩, hc.2.1⟩

/-- Filtering commutes with a map that fixes the filtered rows and never
creates new ones. -/
theorem filter_map_eq {α : Type} (p : α → Bool) (g : α → α) :
    ∀ l : List α, (∀ x ∈ l, p x = true → g x = x) →
      (∀ x ∈ l, p x = false → p (g x) = false) →
      (l.map g).filter p = l.filter p := by
  intro l
  induction l with
  | nil => intro _ _; rfl
  | cons x xs ih =>
    intro h1 h2
    rw [List.map_cons]
    by_cases hx : p x = true
    · rw [List.filter_cons_of_pos (by rw [h1 x (List.mem_cons_self x xs) hx]; exact hx),
        List.filter_cons_of_pos hx,
        h1 x (List.mem_cons_self x xs) hx,
        ih (fun y hy => h1 y (List.mem_cons_of_mem x hy))
          (fun y hy => h2 y (List.mem_cons_of_mem x hy))]
    · have hx' : p x = false := by
        cases hpx : p x
        · rfl
        · exact absurd hpx hx
      rw [List.filter_cons_of_neg (by rw [h2 x (List.mem_cons_self x xs) hx']; simp),
        List.filter_cons_of_neg (by rw [hx']; simp),
        ih (fun y hy => h1 y (List.mem_cons_of_mem x hy))
          (fun y hy => h2 y (List.mem_cons_of_mem x hy))]

/-- An insert statement adds one open row for its own pair and leaves every
other pair's open rows unchanged. -/
theorem openRowsFor_insert (u l : String) (rid t : Nat) (d : DB) (u2 l2 : String) :
    (openRowsFor (insertListStmt u l rid t d) u2 l2).length =
      (openRowsFor d u2 l2).length + (if u2 = u ∧ l2 = l then 1 else 0) := by
  unfold openRowsFor insertListStmt
  rw [List.filter_append, List.length_append]
  by_cases h : u2 = u ∧ l2 = l
  · simp [h.1, h.2]
  · have : ¬(u = u2 ∧ l = l2 ∧ (none : Option Nat) = none) := by
      intro hc
      exact h ⟨hc.1.symm, hc.2.1.symm⟩
    simp only [List.filter_cons, List.filter_nil]
    rw [if_neg h]
    simp
    intro h1 h2
    exact h ⟨h1.symm, h2.symm⟩

/-- Closing a pair's open rows leaves no open row for that pair. -/
theorem openRowsFor_close_self (u l : String) (t : Nat) (d : DB) :
    openRowsFor (closeListStmt u l t d) u l = [] := by
  unfold openRowsFor closeListStmt
  rw [List.filter_eq_nil_iff]
  intro r hr
  rcases List.mem_map.mp hr with ⟨r0, _, hmap⟩
  subst hmap
  by_cases hc : r0.username = u ∧ r0.list_name = l ∧ r0.removed_at = none
  · simp [hc]
  · rw [if_neg hc]
    simpa using hc

/-- Closing one pair's open rows leaves every other pair's open rows
unchanged. -/
theorem openRowsFor_close_other (u l : String) (t : Nat) (d : DB)
    (u2 l2 : String) (h : ¬(u2 = u ∧ l2 = l)) :
    openRowsFor (closeListStmt u l t d) u2 l2 = openRowsFor d u2 l2 := by
  unfold openRowsFor closeListStmt
  apply filter_map_eq
  · intro r _ hp
    have hp' := of_decide_eq_true hp
    rw [if_neg]
    intro hc
    exact h ⟨hp'.1 ▸ hc.1.symm ▸ rfl, hp'.2.1 ▸ hc.2.1.symm ▸ rfl⟩
  · intro r _ hp
    by_cases hc : r.username = u ∧ r.list_name = l ∧ r.removed_at = none
    · simp [hc, decide_eq_false_iff_not]
    · rw [if_neg hc]
      exact hp

/-- Folding inserts for a duplicate-free batch of names adds exactly one
open row per inserted (user, name) pair. -/
theorem openRowsFor_insert_fold (u : String) (rid t : Nat) :
    ∀ (L : List String), L.Nodup → ∀ (d : DB) (u2 l2 : String),
      (openRowsFor (L.foldl (fun d l => insertListStmt u l rid t d) d) u2 l2).length =
        (openRowsFor d u2 l2).length + (if u2 = u ∧ l2 ∈ L then 1 else 0) := by
  intro L
  induction L with
  | nil => intro _ d u2 l2; simp
  | cons l L ih =>
    intro hnd d u2 l2
    rw [List.foldl_cons, ih (List.Nodup.of_cons hnd) _ u2 l2, openRowsFor_insert]
    have hlnotL : l ∉ L := (List.nodup_cons.mp hnd).1
    by_cases hu : u2 = u
    · by_cases he : l2 = l
      · have hnotL : l2 ∉ L := he ▸ hlnotL
        simp [hu, he, hnotL, hlnotL]
      · by_cases hL : l2 ∈ L <;> simp [hu, he, hL, List.mem_cons]
    · simp [hu]

/-- Folding closes over a batch of names empties the open rows of exactly
the closed (user, name) pairs. -/
theorem openRowsFor_close_fold (u : String) (t : Nat) :
    ∀ (L : List String) (d : DB) (u2 l2 : String),
      openRowsFor (L.foldl (fun d l => closeListStmt u l t d) d) u2 l2 =
        if u2 = u ∧ l2 ∈ L then [] else openRowsFor d u2 l2 := by
  intro L
  induction L with
  | nil => intro d u2 l2; simp
  | cons l L ih =>
    intro d u2 l2
    rw [List.foldl_cons, ih]
    by_cases hu : u2 = u
    · by_cases hL : l2 ∈ L
      · simp [hu, hL, List.mem_cons]
      · by_cases he : l2 = l
        · subst he
          subst hu
          simp [hL, openRowsFor_close_self]
        · rw [if_neg (by simp [hL]), if_neg (by simp [List.mem_cons, he, hL]),
            openRowsFor_close_other u l t d u2 l2 (by simp [he])]
    · rw [if_neg (by simp [hu]), if_neg (by simp [hu]),
        openRowsFor_close_other u l t d u2 l2 (by simp [hu])]

/-- Length of each pair's open rows after a committed upsert: pairs of
dropped lists go to zero, pairs of added lists gain one row, all other
pairs are untouched. -/
theorem openRowsFor_upsert (db : DB) (u : String) (p : Rat) (s : String)
    (ls : List String) (rid t : Nat) (u2 l2 : String) :
    (openRowsFor (upsert_user db u p s ls rid t) u2 l2).length =
      if u2 = u ∧ l2 ∈ (openListNames db u).filter (fun l => l ∉ ls) then 0
      else (openRowsFor db u2 l2).length +
        (if u2 = u ∧ l2 ∈ ls.dedup.filter (fun l => l ∉ openListNames db u)
          then 1 else 0) := by
  show (openRowsFor ((upsert_stmts db u p s ls rid t).foldl (fun d f => f d) db)
      u2 l2).length = _
  unfold upsert_stmts
  rw [List.foldl_cons, List.foldl_cons, List.foldl_append, List.foldl_map,
    List.foldl_map]
  have hbase : ∀ w m, openRowsFor (phStmt u p s rid t
      (usersStmt db u p s rid t db)) w m = openRowsFor db w m := by
    intro w m
    unfold openRowsFor
    have h1 : (phStmt u p s rid t (usersStmt db u p s rid t db)).user_lists =
        db.user_lists := by
      show (usersStmt db u p s rid t db).user_lists = db.user_lists
      exact usersStmt_user_lists db u p s rid t db
    rw [h1]
  rw [openRowsFor_close_fold]
  by_cases hrem : u2 = u ∧ l2 ∈ (openListNames db u).filter (fun l => l ∉ ls)
  · rw [if_pos hrem, if_pos hrem]
    simp
  · rw [if_neg hrem, if_neg hrem,
      openRowsFor_insert_fold u rid t _ (List.Nodup.filter _ (List.nodup_dedup ls))
        _ u2 l2, hbase]

/-- Claim C6: every upsert preserves the at-most-one-open-row invariant of
ListMembership, and on the concrete {A, B} to {B, C} scenario the upsert
closes A (non-null removed-at), leaves B's open row untouched and inserts
exactly one new open row for C. -/
theorem claim_C6 :
    (∀ (db : DB) (u : String) (p : Rat) (s : String) (ls : List String)
      (rid t : Nat), OpenUnique db → OpenUnique (upsert_user db u p s ls rid t)) ∧
    (upsert_user exDbAB "u" 5 "NO_SUBSCRIPTION" ["B", "C"] 2 9).user_lists =
      [⟨1, "u", "A", 1, some 9, 1⟩, ⟨2, "u", "B", 1, none, 1⟩,
       ⟨3, "u", "C", 9, none, 2⟩] ∧
    openRowsFor (upsert_user exDbAB "u" 5 "NO_SUBSCRIPTION" ["B", "C"] 2 9) "u" "A" = [] ∧
    openRowsFor (upsert_user exDbAB "u" 5 "NO_SUBSCRIPTION" ["B", "C"] 2 9) "u" "B" =
      openRowsFor exDbAB "u" "B" ∧
    (openRowsFor (upsert_user exDbAB "u" 5 "NO_SUBSCRIPTION" ["B", "C"] 2 9) "u" "C").length = 1 := by
  refine ⟨?_, by decide, by decide, by decide, by decide⟩
  intro db u p s ls rid t hinv u2 l2
  rw [openRowsFor_upsert]
  split
  · omega
  · by_cases hadd : u2 = u ∧ l2 ∈ ls.dedup.filter (fun l => l ∉ openListNames db u)
    · rcases hadd with ⟨hu2, hmem⟩
      rcases List.mem_filter.mp hmem with ⟨_, hcond⟩
      have hnot2 : l2 ∉ openListNames db u := by simpa using hcond
      have hempty : openRowsFor db u2 l2 = [] := by
        by_contra hne
        exact hnot2 (hu2 ▸ (mem_openListNames db u2 l2).mpr hne)
      rw [if_pos ⟨hu2, hmem⟩, hempty]
      simp
    · rw [if_neg hadd]
      have := hinv u2 l2
      omega

/-- Witness for claim C6: the invariant-preservation statement applied to
the two-membership fixture, whose open rows are pairwise for distinct
lists. -/
theorem claim_C6_witness :
    OpenUnique (upsert_user exDbAB "u" 5 "NO_SUBSCRIPTION" ["B", "C"] 2 9) := by
  apply claim_C6.1
  intro u l
  unfold openRowsFor exDbAB
  by_cases hu : ("u" : String) = u
  · subst hu
    by_cases hA : ("A" : String) = l
    · subst hA
      decide
    · by_cases hB : ("B" : String) = l
      · subst hB
        decide
      · simp [List.filter, hA, hB]
  · simp [List.filter, hu]

/-! ### Helper lemmas for the historical-low query -/

/-- The running minimum of a list is one of its elements. -/
theorem foldl_min_mem : ∀ (ps : List Rat) (p : Rat), ps.foldl min p ∈ p :: ps := by
  intro ps
  induction ps with
  | nil => intro p; exact List.mem_singleton_self p
  | cons q ps ih =>
    intro p
    rw [List.foldl_cons]
    rcases List.mem_cons.mp (ih (min p q)) with h | h
    · rcases min_choice p q with hm | hm
      · rw [h, hm]
        exact List.mem_cons_self p _
      · rw [h, hm]
        exact List.mem_cons_of_mem p (List.mem_cons_self q ps)
    · exact List.mem_cons_of_mem p (List.mem_cons_of_mem q h)

/-- The running minimum of a list bounds every element from below. -/
theorem foldl_min_le : ∀ (ps : List Rat) (p : Rat), ∀ x ∈ p :: ps, ps.foldl min p ≤ x := by
  intro ps
  induction ps with
  | nil =>
    intro p x hx
    rw [List.mem_singleton] at hx
    exact hx ▸ le_refl p
  | cons q ps ih =>
    intro p x hx
    rw [List.foldl_cons]
    have hbase : ps.foldl min (min p q) ≤ min p q :=
      ih (min p q) (min p q) (List.mem_cons_self _ ps)
    rcases List.mem_cons.mp hx with h | h
    · rw [h]
      exact le_trans hbase (min_le_left p q)
    · rcases List.mem_cons.mp h with h2 | h2
      · rw [h2]
        exact le_trans hbase (min_le_right p q)
      · exact ih (min p q) x (List.mem_cons_of_mem _ h2)

/-- The `MIN` aggregate equals `c` exactly when `c` is an attained lower
bound of the user's observed prices. -/
theorem minObservedPrice_eq (db : DB) (u : String) (c : Rat) :
    minObservedPrice db u = some c ↔
      (∃ o ∈ observationsOf db u, o.price = c) ∧
      (∀ o ∈ observationsOf db u, c ≤ o.price) := by
  unfold minObservedPrice
  cases hobs : (observationsOf db u).map (fun r => r.price) with
  | nil =>
    have : ∀ o ∈ observationsOf db u, False := by
      intro o ho
      have : o.price ∈ (observationsOf db u).map (fun r => r.price) :=
        List.mem_map_of_mem _ ho
      rw [hobs] at this
      simp at this
    constructor
    · intro h; cases h
    · rintro ⟨⟨o, ho, _⟩, _⟩
      exact absurd ho (fun hx => this o hx)
  | cons p ps =>
    constructor
    · intro h
      have hc : ps.foldl min p = c := by
        injection h
      constructor
      · have hmem : c ∈ p :: ps := hc ▸ foldl_min_mem ps p
        rw [← hobs] at hmem
        rcases List.mem_map.mp hmem with ⟨o, ho, hop⟩
        exact ⟨o, ho, hop⟩
      · intro o ho
        have : o.price ∈ p :: ps := by
          rw [← hobs]
          exact List.mem_map_of_mem _ ho
        exact hc ▸ foldl_min_le ps p o.price this
    · rintro ⟨⟨o, ho, hop⟩, hall⟩
      have hmem : c ∈ p :: ps := by
        rw [← hobs, ← hop]
        exact List.mem_map_of_mem _ ho
      have hfold_mem : ps.foldl min p ∈ p :: ps := foldl_min_mem ps p
      have h1 : ps.foldl min p ≤ c := foldl_min_le ps p c hmem
      have h2 : c ≤ ps.foldl min p := by
        rw [← hobs] at hfold_mem
        rcases List.mem_map.mp hfold_mem with ⟨o2, ho2, hop2⟩
        exact hop2 ▸ hall o2 ho2
      exact congrArg some (le_antisymm h1 h2)

/-- A list's dedup has at least two entries exactly when the list holds two
different values. -/
theorem one_lt_dedup_length {α : Type} [DecidableEq α] (l : List α) :
    1 < l.dedup.length ↔ ∃ a ∈ l, ∃ b ∈ l, a ≠ b := by
  constructor
  · intro h
    match hd : l.dedup with
    | [] => rw [hd] at h; simp at h
    | [x] => rw [hd] at h; simp at h
    | x :: y :: rest =>
      have hx : x ∈ l := List.mem_dedup.mp (hd ▸ List.mem_cons_self x (y :: rest))
      have hy : y ∈ l := List.mem_dedup.mp
        (hd ▸ List.mem_cons_of_mem x (List.mem_cons_self y rest))
      have hnd : l.dedup.Nodup := List.nodup_dedup l
      rw [hd] at hnd
      have hne : x ≠ y := by
        intro hxy
        exact (List.nodup_cons.mp hnd).1 (hxy ▸ List.mem_cons_self y rest)
      exact ⟨x, hx, y, hy, hne⟩
  · rintro ⟨a, ha, b, hb, hne⟩
    by_contra hlen
    push_neg at hlen
    have ha2 : a ∈ l.dedup := List.mem_dedup.mpr ha
    have hb2 : b ∈ l.dedup := List.mem_dedup.mpr hb
    match hd : l.dedup with
    | [] =>
      rw [hd] at ha2
      simp at ha2
    | [x] =>
      rw [hd] at ha2 hb2
      rw [List.mem_singleton] at ha2 hb2
      exact hne (ha2.trans hb2.symm)
    | x :: y :: rest =>
      rw [hd] at hlen
      simp at hlen

/-- Counterexample to claim C8: a user with two observations, both at the
historical-minimum price, whose current price is that minimum and whose
profile is not subscribed. The claim says the user qualifies (at least two
observations, current = minimum); the query returns nothing, because it
counts distinct scrape runs and both observations share one run. -/
theorem claim_C8_counterexample :
    (observationsOf exDbOneRun "u").length = 2 ∧
    minObservedPrice exDbOneRun "u" = some 8 ∧
    (findUser exDbOneRun "u").map (fun r => (r.current_price, r.subscription_status)) =
      some (8, "NO_SUBSCRIPTION") ∧
    "u" ∉ get_historical_low_prices exDbOneRun := by
  decide

/-- Claim C8 amended: the historical-low query returns exactly the
usernames of not-subscribed profiles whose current price is an attained
lower bound of all their observations and whose observations span at least
two distinct scrape runs (the query counts distinct runs, not observation
rows). Concretely, a user with price sequence 10, 8, 8 over distinct runs
and current price 8 qualifies, and stops qualifying once a fourth
observation moves the current price to 12. -/
theorem claim_C8 :
    (∀ (db : DB) (u : String),
      u ∈ get_historical_low_prices db ↔
        ∃ row ∈ db.users, row.username = u ∧
          row.subscription_status = "NO_SUBSCRIPTION" ∧
          (∃ o ∈ observationsOf db u, o.price = row.current_price) ∧
          (∀ o ∈ observationsOf db u, row.current_price ≤ o.price) ∧
          (∃ o1 ∈ observationsOf db u, ∃ o2 ∈ observationsOf db u,
            o1.scrape_run_id ≠ o2.scrape_run_id)) ∧
    "u" ∈ get_historical_low_prices exDbLow ∧
    "u" ∉ get_historical_low_prices exDbRisen := by
  refine ⟨?_, by decide, by decide⟩
  intro db u
  unfold get_historical_low_prices
  rw [List.mem_map]
  constructor
  · rintro ⟨row, hrow, hname⟩
    rcases List.mem_filter.mp hrow with ⟨hmem, hcond⟩
    have hc := of_decide_eq_true hcond
    obtain ⟨hstat, hne, hmin, hcount⟩ := hc
    subst hname
    obtain ⟨hatt, hbound⟩ := (minObservedPrice_eq db row.username row.current_price).mp hmin
    refine ⟨row, hmem, rfl, hstat, hatt, hbound, ?_⟩
    rcases (one_lt_dedup_length _).mp hcount with ⟨a, ha, b, hb, hne2⟩
    rcases List.mem_map.mp ha with ⟨o1, ho1, hao⟩
    rcases List.mem_map.mp hb with ⟨o2, ho2, hbo⟩
    exact ⟨o1, ho1, o2, ho2, by rw [hao, hbo]; exact hne2⟩
  · rintro ⟨row, hmem, hname, hstat, hatt, hbound, o1, ho1, o2, ho2, hne2⟩
    subst hname
    refine ⟨row, List.mem_filter.mpr ⟨hmem, ?_⟩, rfl⟩
    apply decide_eq_true
    refine ⟨hstat, ?_, ?_, ?_⟩
    · rcases hatt with ⟨o, ho, _⟩
      intro hnil
      rw [hnil] at ho
      simp at ho
    · exact (minObservedPrice_eq db row.username row.current_price).mpr ⟨hatt, hbound⟩
    · exact (one_lt_dedup_length _).mpr
        ⟨o1.scrape_run_id, List.mem_map_of_mem _ ho1,
         o2.scrape_run_id, List.mem_map_of_mem _ ho2, hne2⟩

/-- Witness for claim C8: the characterization applied to the
three-observation fixture, producing the query hit. -/
theorem claim_C8_witness : "u" ∈ get_historical_low_prices exDbLow :=
  (claim_C8.1 exDbLow "u").mpr
    ⟨⟨"u", 8, "NO_SUBSCRIPTION", 1, 3, 3⟩, by decide, by decide, by decide,
     by decide, by decide, by decide⟩

/-- When the upserted list set matches the open list names, the transaction
issues no membership statement and the `user_lists` table is untouched. -/
theorem upsert_user_lists_noop (db : DB) (u : String) (p : Rat) (s : String)
    (ls : List String) (rid t : Nat)
    (ha : ls.dedup.filter (fun l => l ∉ openListNames db u) = [])
    (hr : (openListNames db u).filter (fun l => l ∉ ls) = []) :
    (upsert_user db u p s ls rid t).user_lists = db.user_lists := by
  show ((upsert_stmts db u p s ls rid t).foldl (fun d f => f d) db).user_lists = _
  simp only [upsert_stmts]
  rw [ha, hr]
  simp only [List.map_nil, List.append_nil, List.foldl_cons, List.foldl_nil]
  show (usersStmt db u p s rid t db).user_lists = db.user_lists
  exact usersStmt_user_lists db u p s rid t db

/-- Claim C10: an item whose price label is absent or unparsable is
sampled as the unknown record and persisted with price exactly `0`, its
list labels dropped (no membership row is written for a fresh user), so the
stored price is indistinguishable from that of a genuinely free profile.
The concrete conjuncts store a free-labeled profile and exhibit the equal
stored prices. -/
theorem claim_C10 :
    (∀ (it : Item) (u : String) (sf : Nat → Bool) (rid now : Nat)
      (st : ScrapeState),
      get_username it = some u → u ≠ "" →
      (it.priceText = "" ∨ get_offer it.priceText = .error () ∨
        (∃ o, get_offer it.priceText = .ok o ∧
          get_price it.priceText o = .error ())) →
      u ∉ st.seen → findUser st.db u = none → openListNames st.db u = [] →
      sf (st.upsertCalls + 1) = false →
      scrape_info it = some (unknown_user_info u) ∧
      ∃ r2, findUser (write_to_database sf rid now [it] st).db u = some r2 ∧
        r2.current_price = 0 ∧
        openListNames (write_to_database sf rid now [it] st).db u = [] ∧
        (write_to_database sf rid now [it] st).db.price_history =
          st.db.price_history ++
            [⟨st.db.price_history.length + 1, u, 0, "?", now, rid⟩]) ∧
    ((findUser (write_to_database storeOk 1 7 [exItemNoPrice]
        ⟨DB.empty, [], 0⟩).db "bob").map (fun r => r.current_price) = some 0 ∧
      (findUser (write_to_database storeOk 1 7 [exItemFree]
        ⟨DB.empty, [], 0⟩).db "carol").map (fun r => r.current_price) = some 0) := by
  refine ⟨?_, by decide, by decide⟩
  intro it u sf rid now st hname hne hfail hseen hfind hopen hsf
  have hinfo : scrape_info it = some (unknown_user_info u) := by
    unfold scrape_info
    rw [hname]
    dsimp only
    rw [if_neg hne]
    rcases hfail with h | h | ⟨o, ho, hp⟩
    · rw [if_pos h]
    · by_cases hpt : it.priceText = ""
      · rw [if_pos hpt]
      · rw [if_neg hpt, h]
    · by_cases hpt : it.priceText = ""
      · rw [if_pos hpt]
      · rw [if_neg hpt, ho]
        dsimp only
        rw [hp]
  refine ⟨hinfo, ?_⟩
  have hcollect : collectNewUsers st.seen [it] =
      (st.seen ++ [u], [unknown_user_info u]) := by
    unfold collectNewUsers
    rw [hinfo]
    dsimp only [unknown_user_info]
    rw [if_neg hseen]
    rfl
  have hwrite : (write_to_database sf rid now [it] st).db =
      upsert_user st.db u 0 "?" [] rid now := by
    unfold write_to_database
    rw [hcollect]
    show (batchWrite sf rid now [unknown_user_info u] st.db st.upsertCalls).1 = _
    unfold batchWrite
    simp only [List.foldl_cons, List.foldl_nil, hsf, if_false, Bool.false_eq_true]
    rfl
  obtain ⟨r2, hfind2, _, hp2, _, _, _, _, hfs⟩ :=
    findUser_upsert_self st.db u 0 "?" [] rid now
  refine ⟨r2, by rw [hwrite]; exact hfind2, hp2, ?_, ?_⟩
  · rw [hwrite]
    have hlists : (upsert_user st.db u 0 "?" [] rid now).user_lists =
        st.db.user_lists := by
      apply upsert_user_lists_noop
      · simp
      · rw [hopen]
        rfl
    unfold openListNames
    rw [hlists]
    exact hopen
  · rw [hwrite]
    exact upsert_user_ph st.db u 0 "?" [] rid now

/-- Witness for claim C10: the unknown-price path applied to the concrete
price-less item on an empty store. -/
theorem claim_C10_witness :
    scrape_info exItemNoPrice = some (unknown_user_info "bob") ∧
    ∃ r2, findUser (write_to_database storeOk 1 7 [exItemNoPrice]
        ⟨DB.empty, [], 0⟩).db "bob" = some r2 ∧
      r2.current_price = 0 ∧
      openListNames (write_to_database storeOk 1 7 [exItemNoPrice]
        ⟨DB.empty, [], 0⟩).db "bob" = [] ∧
      (write_to_database storeOk 1 7 [exItemNoPrice]
        ⟨DB.empty, [], 0⟩).db.price_history =
        (⟨DB.empty, [], 0⟩ : ScrapeState).db.price_history ++
          [⟨(⟨DB.empty, [], 0⟩ : ScrapeState).db.price_history.length + 1,
            "bob", 0, "?", 7, 1⟩] :=
  claim_C10.1 exItemNoPrice "bob" storeOk 1 7 ⟨DB.empty, [], 0⟩
    (by decide) (by decide) (Or.inl (by decide)) (by decide) (by decide)
    (by decide) (by decide)

/-! ### String lemmas for the CSV round trip -/

/-- The accumulator of `splitCommaRev` is appended behind the pieces of the
remaining input. -/
theorem splitCommaRev_acc :
    ∀ (l : List Char) (cur : List Char) (acc : List String),
      splitCommaRev l cur acc = splitCommaRev l cur [] ++ acc := by
  intro l
  induction l with
  | nil => intro cur acc; rfl
  | cons c rest ih =>
    intro cur acc
    unfold splitCommaRev
    by_cases hc : c = ','
    · rw [if_pos hc, if_pos hc,
        ih [] (String.mk cur.reverse :: acc), ih [] [String.mk cur.reverse]]
      simp
    · rw [if_neg hc, if_neg hc, ih]

/-- Processing a comma-free chunk just shifts it into the current piece. -/
theorem splitCommaRev_chunk :
    ∀ (w : List Char), (',' ∉ w) →
      ∀ (rest cur : List Char) (acc : List String),
        splitCommaRev (w ++ rest) cur acc = splitCommaRev rest (w.reverse ++ cur) acc := by
  intro w
  induction w with
  | nil => intro _ rest cur acc; rfl
  | cons c ws ih =>
    intro hnc rest cur acc
    have hc : ¬ c = ',' := fun h => hnc (h ▸ List.mem_cons_self c ws)
    have hstep : splitCommaRev ((c :: ws) ++ rest) cur acc =
        splitCommaRev (ws ++ rest) (c :: cur) acc := by
      show (if c = ',' then splitCommaRev (ws ++ rest) [] (String.mk cur.reverse :: acc)
        else splitCommaRev (ws ++ rest) (c :: cur) acc) = _
      rw [if_neg hc]
    rw [hstep, ih (fun h => hnc (List.mem_cons_of_mem c h)) rest (c :: cur) acc]
    simp

/-- Splitting the comma-join of comma-free pieces recovers the pieces. -/
theorem splitComma_joinComma :
    ∀ (names : List String), (∀ n ∈ names, ',' ∉ n.toList) → names ≠ [] →
      splitComma (joinComma names) = names := by
  intro names
  induction names with
  | nil => intro _ h; exact absurd rfl h
  | cons x ys ih =>
    intro hc _
    match ys with
    | [] =>
      show (splitCommaRev x.toList [] []).reverse = [x]
      have hchunk := splitCommaRev_chunk x.toList (hc x (List.mem_cons_self x [])) [] [] []
      rw [List.append_nil] at hchunk
      rw [hchunk]
      have h0 : splitCommaRev [] (x.toList.reverse ++ []) [] =
          [String.mk (x.toList.reverse ++ []).reverse] := rfl
      rw [h0, List.append_nil, List.reverse_reverse]
      rfl
    | y :: ys2 =>
      have hx : ',' ∉ x.toList := hc x (List.mem_cons_self x (y :: ys2))
      have hdata : (joinComma (x :: y :: ys2)).toList =
          x.toList ++ (',' :: (joinComma (y :: ys2)).toList) := by
        show (x ++ "," ++ joinComma (y :: ys2)).data = _
        rw [String.data_append, String.data_append, List.append_assoc]
        rfl
      show (splitCommaRev (joinComma (x :: y :: ys2)).toList [] []).reverse = _
      rw [hdata, splitCommaRev_chunk x.toList hx _ [] []]
      have h1 : splitCommaRev (',' :: (joinComma (y :: ys2)).toList)
          (x.toList.reverse ++ []) [] =
          splitCommaRev (joinComma (y :: ys2)).toList []
            [String.mk (x.toList.reverse ++ []).reverse] := rfl
      rw [h1, splitCommaRev_acc, List.reverse_append, List.append_nil,
        List.reverse_reverse]
      have h2 : ([String.mk x.toList] : List String).reverse = [x] := rfl
      rw [h2]
      have h3 : (splitCommaRev (joinComma (y :: ys2)).toList [] []).reverse =
          splitComma (joinComma (y :: ys2)) := rfl
      rw [h3, ih (fun n hn => hc n (List.mem_cons_of_mem x hn)) (by simp)]
      rfl

/-- A list fixed by `dropWhile` has a head the predicate rejects. -/
theorem head_false_of_dropWhile_eq_self {p : Char → Bool} {l : List Char}
    (h : l.dropWhile p = l) {a : Char} {t : List Char} (he : l = a :: t) :
    p a = false := by
  subst he
  have := List.dropWhile_eq_self_iff.mp h (by simp)
  simpa using this

/-- A string with whitespace-free fringes is fixed by `pyStrip`. -/
theorem pyStrip_eq_self_of (s : String)
    (h1 : s.data.dropWhile Char.isWhitespace = s.data)
    (h2 : s.data.reverse.dropWhile Char.isWhitespace = s.data.reverse) :
    pyStrip s = s := by
  show String.mk (((s.data.dropWhile Char.isWhitespace).reverse.dropWhile
    Char.isWhitespace).reverse) = s
  rw [h1, h2, List.reverse_reverse]

/-- A string fixed by `pyStrip` has whitespace-free fringes. -/
theorem pyStrip_self_parts (s : String) (h : pyStrip s = s) :
    s.data.dropWhile Char.isWhitespace = s.data ∧
    s.data.reverse.dropWhile Char.isWhitespace = s.data.reverse := by
  have hd : (((s.data.dropWhile Char.isWhitespace).reverse.dropWhile
      Char.isWhitespace).reverse) = s.data := congrArg String.data h
  have hlen : (((s.data.dropWhile Char.isWhitespace).reverse.dropWhile
      Char.isWhitespace).reverse).length = s.data.length := by rw [hd]
  have hle2 : ((s.data.dropWhile Char.isWhitespace).reverse.dropWhile
      Char.isWhitespace).length ≤ (s.data.dropWhile Char.isWhitespace).length := by
    calc ((s.data.dropWhile Char.isWhitespace).reverse.dropWhile
        Char.isWhitespace).length
        ≤ (s.data.dropWhile Char.isWhitespace).reverse.length :=
          (List.dropWhile_sublist _).length_le
      _ = (s.data.dropWhile Char.isWhitespace).length := List.length_reverse _
  have hle1 : (s.data.dropWhile Char.isWhitespace).length ≤ s.data.length :=
    (List.dropWhile_sublist _).length_le
  rw [List.length_reverse] at hlen
  have h1 : s.data.dropWhile Char.isWhitespace = s.data :=
    (List.dropWhile_sublist _).eq_of_length (by omega)
  refine ⟨h1, ?_⟩
  rw [h1] at hd
  calc s.data.reverse.dropWhile Char.isWhitespace
      = (s.data.reverse.dropWhile Char.isWhitespace).reverse.reverse :=
        (List.reverse_reverse _).symm
    _ = s.data.reverse := by rw [hd]

/-- A string is empty exactly when its character list is. -/
theorem data_eq_nil_iff (s : String) : s.data = [] ↔ s = "" := by
  constructor
  · intro h
    have : String.mk s.data = String.mk [] := by rw [h]
    exact this
  · intro h
    rw [h]

/-- The comma-join of a nonempty batch of nonempty names is nonempty. -/
theorem joinComma_ne_empty (names : List String)
    (hne : ∀ n ∈ names, n ≠ "") (h0 : names ≠ []) :
    (joinComma names).data ≠ [] := by
  match names with
  | [] => exact absurd rfl h0
  | [x] =>
    show x.data ≠ []
    exact fun h => hne x (List.mem_cons_self x []) ((data_eq_nil_iff x).mp h)
  | x :: y :: ys =>
    show (x ++ "," ++ joinComma (y :: ys)).data ≠ []
    rw [String.data_append, String.data_append]
    intro h
    rcases List.append_eq_nil.mp h with ⟨h1, _⟩
    rcases List.append_eq_nil.mp h1 with ⟨hx, _⟩
    exact hne x (List.mem_cons_self x _) ((data_eq_nil_iff x).mp hx)

/-- The comma-join of clean names is fixed by `pyStrip`. -/
theorem pyStrip_joinComma :
    ∀ (names : List String), (∀ n ∈ names, pyStrip n = n ∧ n ≠ "") →
      pyStrip (joinComma names) = joinComma names := by
  have hleft : ∀ (names : List String),
      (∀ n ∈ names, pyStrip n = n ∧ n ≠ "") → names ≠ [] →
      (joinComma names).data.dropWhile Char.isWhitespace = (joinComma names).data := by
    intro names hclean h0
    match names with
    | [] => exact absurd rfl h0
    | x :: ys =>
      obtain ⟨hxs, hxe⟩ := hclean x (List.mem_cons_self x ys)
      have hx1 := (pyStrip_self_parts x hxs).1
      have hxd : x.data ≠ [] := fun h => hxe ((data_eq_nil_iff x).mp h)
      match hx : x.data with
      | [] => exact absurd hx hxd
      | a :: t =>
        have hpa : Char.isWhitespace a = false :=
          head_false_of_dropWhile_eq_self hx1 hx
        match ys with
        | [] =>
          show x.data.dropWhile Char.isWhitespace = x.data
          exact hx1
        | y :: ys2 =>
          have hjd : (joinComma (x :: y :: ys2)).data =
              x.data ++ (',' :: (joinComma (y :: ys2)).data) := by
            show (x ++ "," ++ joinComma (y :: ys2)).data = _
            rw [String.data_append, String.data_append, List.append_assoc]
            rfl
          rw [hjd, hx]
          rw [List.cons_append, List.dropWhile_cons, hpa]
          simp
  have hright : ∀ (names : List String),
      (∀ n ∈ names, pyStrip n = n ∧ n ≠ "") → names ≠ [] →
      (joinComma names).data.reverse.dropWhile Char.isWhitespace =
        (joinComma names).data.reverse := by
    intro names
    induction names with
    | nil => intro _ h0; exact absurd rfl h0
    | cons x ys ih =>
      intro hclean _
      obtain ⟨hxs, hxe⟩ := hclean x (List.mem_cons_self x ys)
      match ys with
      | [] =>
        show x.data.reverse.dropWhile Char.isWhitespace = x.data.reverse
        exact (pyStrip_self_parts x hxs).2
      | y :: ys2 =>
        have hD := ih (fun n hn => hclean n (List.mem_cons_of_mem x hn)) (by simp)
        have hDne : (joinComma (y :: ys2)).data ≠ [] :=
          joinComma_ne_empty (y :: ys2)
            (fun n hn => (hclean n (List.mem_cons_of_mem x hn)).2) (by simp)
        have hDrevne : (joinComma (y :: ys2)).data.reverse ≠ [] := by
          intro h
          exact hDne (by simpa using congrArg List.reverse h)
        match hDrev : (joinComma (y :: ys2)).data.reverse with
        | [] => exact absurd hDrev hDrevne
        | b :: u =>
          have hpb : Char.isWhitespace b = false :=
            head_false_of_dropWhile_eq_self hD hDrev
          have hjd : (joinComma (x :: y :: ys2)).data =
              x.data ++ (',' :: (joinComma (y :: ys2)).data) := by
            show (x ++ "," ++ joinComma (y :: ys2)).data = _
            rw [String.data_append, String.data_append, List.append_assoc]
            rfl
          rw [hjd, List.reverse_append, List.reverse_cons, List.append_assoc,
            hDrev]
          rw [List.cons_append, List.dropWhile_cons, hpb]
          simp
  intro names hclean
  match names with
  | [] => rfl
  | x :: ys =>
    exact pyStrip_eq_self_of _ (hleft (x :: ys) hclean (by simp))
      (hright (x :: ys) hclean (by simp))

/-- Parsing the comma-joined lists column of clean names recovers the
names. -/
theorem parseLists_joinComma (names : List String)
    (hclean : ∀ n ∈ names, pyStrip n = n ∧ n ≠ "" ∧ ',' ∉ n.toList) :
    parseLists (joinComma names) = names := by
  unfold parseLists
  rw [pyStrip_joinComma names (fun n hn => ⟨(hclean n hn).1, (hclean n hn).2.1⟩)]
  match names with
  | [] => rfl
  | x :: ys =>
    rw [if_neg (fun h => joinComma_ne_empty (x :: ys)
        (fun n hn => (hclean n hn).2.1) (by simp) ((data_eq_nil_iff _).mpr h))]
    rw [splitComma_joinComma (x :: ys) (fun n hn => (hclean n hn).2.2) (by simp)]
    have hmap : (x :: ys).map pyStrip = x :: ys := by
      rw [List.map_congr_left (fun n hn => (hclean n hn).1)]
      exact List.map_id' _
    rw [hmap]
    rw [List.filter_eq_self.mpr (fun n hn => by simp [(hclean n hn).2.1])]

/-! ### Frame lemmas for the import fold -/

/-- An upsert for one username leaves every other username's
ProfileCurrentState lookup unchanged. -/
theorem findUser_upsert_other (db : DB) (u : String) (p : Rat) (s : String)
    (ls : List String) (rid t : Nat) (w : String) (hw : w ≠ u) :
    findUser (upsert_user db u p s ls rid t) w = findUser db w := by
  show (fun d => findUser d w) ((upsert_stmts db u p s ls rid t).foldl
    (fun d f => f d) db) = (fun d => findUser d w) db
  apply foldl_preserve (fun d => findUser d w)
  intro f hf d
  simp only [upsert_stmts, List.mem_cons, List.mem_append, List.mem_map] at hf
  rcases hf with h | h | ⟨l, _, h⟩ | ⟨l, _, h⟩
  · subst h
    unfold usersStmt
    cases hbr : findUser db u with
    | some r0 =>
      show findUser _ w = findUser d w
      unfold findUser
      rw [findUser_map d.users w _ (fun r => by split <;> rfl)]
      cases hfw : d.users.find? (fun r => r.username = w) with
      | none => rfl
      | some r =>
        have hr : r.username = w := by
          have h2 := List.find?_some hfw
          exact of_decide_eq_true h2
        rw [Option.map_some']
        rw [if_neg (fun hru => hw ((hru.symm.trans hr).symm))]
    | none =>
      show findUser _ w = findUser d w
      unfold findUser
      rw [List.find?_append]
      have hnone : ([(⟨u, p, s, t, t, rid⟩ : UserRow)].find?
          (fun r => r.username = w)) = none := by
        rw [List.find?_cons_of_neg _ ?side, List.find?_nil]
        case side =>
          simp only [decide_eq_true_eq]
          exact fun h => hw h.symm
      rw [hnone, Option.or_none]
  · subst h; rfl
  · subst h; rfl
  · subst h; rfl

/-- In a row list with pairwise-distinct usernames, looking a member row's
username up finds that row. -/
theorem find?_self_of_nodup :
    ∀ (l : List UserRow), (l.map (fun r => r.username)).Nodup →
      ∀ urow ∈ l, l.find? (fun r => r.username = urow.username) = some urow := by
  intro l
  induction l with
  | nil => intro _ urow h; simp at h
  | cons r rs ih =>
    intro hnodup urow hmem
    rw [List.map_cons] at hnodup
    rcases List.mem_cons.mp hmem with h | h
    · subst h
      exact List.find?_cons_of_pos _ (by simp)
    · by_cases hru : r.username = urow.username
      · have heq : r = urow := by
          rw [← List.map_cons] at hnodup
          exact List.inj_on_of_nodup_map hnodup
            (List.mem_cons_self r rs) hmem hru
        rw [heq]
        exact List.find?_cons_of_pos _ (by simp)
      · rw [List.find?_cons_of_neg _ (by simp [hru])]
        exact ih (List.Nodup.of_cons hnodup) urow h

/-- With pairwise-distinct usernames, the store lookup of a row's username
returns that row. -/
theorem findUser_self_of_nodup (db : DB)
    (hnodup : (db.users.map (fun r => r.username)).Nodup) :
    ∀ urow ∈ db.users, findUser db urow.username = some urow :=
  find?_self_of_nodup db.users hnodup

/-- Invariant carried through the import loop: every original user keeps а
ProfileCurrentState row with the original price, status and first-seen
time, the membership table is untouched, and the runs table is untouched.
The row hypothesis packages what each CSV row of a well-formed export
satisfies (see `export_rows_spec`). -/
theorem import_fold (db : DB)
    (hnodup : (db.users.map (fun r => r.username)).Nodup) (rid t : Nat) :
    ∀ (rows : List CsvRow),
      (∀ row ∈ rows, ∃ urow0 ∈ db.users,
        pyStrip row.username = urow0.username ∧ urow0.username ≠ "" ∧
        row.price = some urow0.current_price ∧
        (if pyStrip row.subscription_status = "" then "NO_SUBSCRIPTION"
          else pyStrip row.subscription_status) = urow0.subscription_status ∧
        parseLists row.lists = (db.user_lists.filter (fun lr =>
          lr.username = urow0.username ∧ lr.removed_at = none)).map
            (fun lr => lr.list_name)) →
      ∀ (z : DB × Nat),
        (∀ urow ∈ db.users, ∃ r2, findUser z.1 urow.username = some r2 ∧
          r2.current_price = urow.current_price ∧
          r2.subscription_status = urow.subscription_status ∧
          r2.first_seen = urow.first_seen) →
        z.1.user_lists = db.user_lists →
        (∀ urow ∈ db.users, ∃ r2,
          findUser (rows.foldl (fun acc row =>
            let r := import_row acc.1 rid t row
            (r.1, acc.2 + r.2)) z).1 urow.username = some r2 ∧
          r2.current_price = urow.current_price ∧
          r2.subscription_status = urow.subscription_status ∧
          r2.first_seen = urow.first_seen) ∧
        (rows.foldl (fun acc row =>
          let r := import_row acc.1 rid t row
          (r.1, acc.2 + r.2)) z).1.user_lists = db.user_lists ∧
        (rows.foldl (fun acc row =>
          let r := import_row acc.1 rid t row
          (r.1, acc.2 + r.2)) z).1.scrape_runs = z.1.scrape_runs := by
  intro rows
  induction rows with
  | nil =>
    intro _ z hz1 hz2
    exact ⟨hz1, hz2, rfl⟩
  | cons row rows ih =>
    intro hrows z hz1 hz2
    obtain ⟨urow0, hmem0, hun, hne0, hpr, hst, hpl⟩ :=
      hrows row (List.mem_cons_self row rows)
    have hd1 : (import_row z.1 rid t row).1 =
        upsert_user z.1 urow0.username urow0.current_price
          urow0.subscription_status
          ((db.user_lists.filter (fun lr =>
            lr.username = urow0.username ∧ lr.removed_at = none)).map
              (fun lr => lr.list_name)) rid t := by
      unfold import_row
      rw [hun, if_neg hne0, hpr, hst, hpl]
      rfl
    have hopen : openListNames z.1 urow0.username =
        ((db.user_lists.filter (fun lr =>
          lr.username = urow0.username ∧ lr.removed_at = none)).map
            (fun lr => lr.list_name)).dedup := by
      unfold openListNames
      rw [hz2]
    have huls : (import_row z.1 rid t row).1.user_lists = z.1.user_lists := by
      rw [hd1]
      apply upsert_user_lists_noop
      · rw [hopen, List.filter_eq_nil_iff]
        intro a ha2
        simp only [decide_eq_true_eq]
        exact fun hnot => hnot ha2
      · rw [hopen, List.filter_eq_nil_iff]
        intro a ha2
        simp only [decide_eq_true_eq]
        exact fun hnot => hnot (List.mem_dedup.mp ha2)
    have hruns : (import_row z.1 rid t row).1.scrape_runs = z.1.scrape_runs := by
      rw [hd1]
      exact upsert_user_runs _ _ _ _ _ _ _
    have hfind : ∀ urow ∈ db.users, ∃ r2,
        findUser (import_row z.1 rid t row).1 urow.username = some r2 ∧
        r2.current_price = urow.current_price ∧
        r2.subscription_status = urow.subscription_status ∧
        r2.first_seen = urow.first_seen := by
      intro urow hmem
      by_cases hsame : urow.username = urow0.username
      · have hrow_eq : urow = urow0 :=
          List.inj_on_of_nodup_map hnodup hmem hmem0 hsame
        subst hrow_eq
        obtain ⟨r2, hfz, _, _, hfs⟩ := hz1 urow hmem
        obtain ⟨r3, hf3, _, hp3, hs3, _, _, hfs3, _⟩ :=
          findUser_upsert_self z.1 urow.username urow.current_price
            urow.subscription_status
            ((db.user_lists.filter (fun lr =>
              lr.username = urow.username ∧ lr.removed_at = none)).map
                (fun lr => lr.list_name)) rid t
        refine ⟨r3, ?_, hp3, hs3, ?_⟩
        · rw [hd1]
          exact hf3
        · rw [hfs3 r2 hfz, hfs]
      · obtain ⟨r2, hfz, hp2, hs2, hfs2⟩ := hz1 urow hmem
        refine ⟨r2, ?_, hp2, hs2, hfs2⟩
        rw [hd1, findUser_upsert_other _ _ _ _ _ _ _ _ hsame]
        exact hfz
    have hstep := ih (fun r hr => hrows r (List.mem_cons_of_mem row hr))
      ((import_row z.1 rid t row).1, z.2 + (import_row z.1 rid t row).2)
      hfind (huls.trans hz2)
    rw [List.foldl_cons]
    refine ⟨hstep.1, hstep.2.1, ?_⟩
    rw [hstep.2.2]
    exact hruns

/-- Every row of the CSV export of a well-formed store corresponds to a
user row, with the same username, price, status, and exactly the user's
open list names recoverable by the import parser. -/
theorem export_rows_spec (db : DB)
    (husers : ∀ r ∈ db.users, pyStrip r.username = r.username ∧ r.username ≠ "" ∧
      pyStrip r.subscription_status = r.subscription_status ∧
      r.subscription_status ≠ "")
    (hlists : ∀ r ∈ db.user_lists, r.removed_at = none →
      pyStrip r.list_name = r.list_name ∧ r.list_name ≠ "" ∧
      ',' ∉ r.list_name.toList) :
    ∀ row ∈ export_csv db, ∃ urow0 ∈ db.users,
      pyStrip row.username = urow0.username ∧ urow0.username ≠ "" ∧
      row.price = some urow0.current_price ∧
      (if pyStrip row.subscription_status = "" then "NO_SUBSCRIPTION"
        else pyStrip row.subscription_status) = urow0.subscription_status ∧
      parseLists row.lists = (db.user_lists.filter (fun lr =>
        lr.username = urow0.username ∧ lr.removed_at = none)).map
          (fun lr => lr.list_name) := by
  intro row hrow
  unfold export_csv get_users_with_lists at hrow
  rw [List.map_map] at hrow
  rcases List.mem_map.mp hrow with ⟨urow0, hmem0, hrow2⟩
  obtain ⟨hus, hue, hss, hse⟩ := husers urow0 hmem0
  refine ⟨urow0, hmem0, ?_⟩
  subst hrow2
  refine ⟨hus, hue, rfl, ?_, ?_⟩
  · show (if pyStrip urow0.subscription_status = "" then "NO_SUBSCRIPTION"
      else pyStrip urow0.subscription_status) = _
    rw [hss, if_neg hse]
  · show parseLists (joinComma _) = _
    apply parseLists_joinComma
    intro n hn
    rcases List.mem_map.mp hn with ⟨lr, hlr, hname⟩
    rcases List.mem_filter.mp hlr with ⟨hlr2, hcond⟩
    have hc := of_decide_eq_true hcond
    obtain ⟨h1, h2, h3⟩ := hlists lr hlr2 hc.2
    exact ⟨hname ▸ h1, hname ▸ h2, hname ▸ h3⟩

/-- Completing a run does not touch the ProfileCurrentState table. -/
theorem findUser_complete (d : DB) (a b : Nat) (c : String) (e : Nat) (w : String) :
    findUser (complete_scrape_run d a b c e) w = findUser d w := rfl

/-- Completing a run does not touch the membership table. -/
theorem user_lists_complete (d : DB) (a b : Nat) (c : String) (e : Nat) :
    (complete_scrape_run d a b c e).user_lists = d.user_lists := rfl

/-- Completing a run keeps the number of run rows. -/
theorem complete_scrape_runs_length (d : DB) (a b : Nat) (c : String) (e : Nat) :
    (complete_scrape_run d a b c e).scrape_runs.length = d.scrape_runs.length :=
  List.length_map _ _

/-- Unfolding of `import_csv` without an explicit timestamp into its three
phases. -/
theorem import_csv_eq (db : DB) (stem : String) (rows : List CsvRow)
    (list_id : String) (wall : Nat) :
    import_csv db stem rows list_id none wall =
      (complete_scrape_run
        (rows.foldl (fun acc row =>
          let r := import_row acc.1 (db.scrape_runs.length + 1)
            ((extract_date_from_filename stem).getD wall) row
          (r.1, acc.2 + r.2))
          ((start_scrape_run db list_id
            ((extract_date_from_filename stem).getD wall)).1, 0)).1
        (db.scrape_runs.length + 1)
        (rows.foldl (fun acc row =>
          let r := import_row acc.1 (db.scrape_runs.length + 1)
            ((extract_date_from_filename stem).getD wall) row
          (r.1, acc.2 + r.2))
          ((start_scrape_run db list_id
            ((extract_date_from_filename stem).getD wall)).1, 0)).2
        "completed" wall,
       db.scrape_runs.length + 1,
       (rows.foldl (fun acc row =>
          let r := import_row acc.1 (db.scrape_runs.length + 1)
            ((extract_date_from_filename stem).getD wall) row
          (r.1, acc.2 + r.2))
          ((start_scrape_run db list_id
            ((extract_date_from_filename stem).getD wall)).1, 0)).2) := rfl

/-- After completing the freshly appended run, its lookup returns the
append-time start timestamp. -/
theorem runStartedAt_complete_append (L : List ScrapeRunRow) (row : ScrapeRunRow)
    (d : DB) (hd : d.scrape_runs = L ++ [row]) (rid cnt e : Nat) (c : String)
    (hrow : row.id = rid) (hL : ∀ r ∈ L, r.id ≠ rid) :
    runStartedAt (complete_scrape_run d rid cnt c e) rid = some row.started_at := by
  unfold runStartedAt complete_scrape_run
  rw [hd, List.map_append, List.find?_append]
  have hnone : ((L.map (fun r => if r.id = rid then
      { r with completed_at := some e, user_count := cnt, status := c }
      else r)).find? (fun r => r.id = rid)) = none := by
    rw [List.find?_eq_none]
    intro r hr
    rcases List.mem_map.mp hr with ⟨r0, hr0, hmap⟩
    have hid : r.id = r0.id := by
      subst hmap
      split <;> rfl
    simp only [decide_eq_true_eq]
    rw [hid]
    exact hL r0 hr0
  rw [hnone]
  have hmap1 : ([row].map (fun r => if r.id = rid then
      { r with completed_at := some e, user_count := cnt, status := c }
      else r)) = [{ row with completed_at := some e, user_count := cnt, status := c }] := by
    rw [List.map_cons, List.map_nil, if_pos hrow]
  rw [hmap1, List.find?_cons_of_pos _ (by simp [hrow])]
  rfl

/-- Counterexample to claim C9: a store whose one open list name contains a
comma. The comma-joined lists column cannot represent it: re-importing the
export under a distinct list id turns the single membership `a,b` into the
two memberships `a` and `b`, so the reproduced ProfileCurrentState list set
differs from the original. -/
theorem claim_C9_counterexample :
    openListNames exDbComma "u" = ["a,b"] ∧
    openListNames (import_csv exDbComma "f" (export_csv exDbComma)
      "imported2" none 9).1 "u" = ["a", "b"] ∧
    openListNames (import_csv exDbComma "f" (export_csv exDbComma)
        "imported2" none 9).1 "u" ≠ openListNames exDbComma "u" := by
  refine ⟨by decide, by decide, by decide⟩

/-- Claim C9 amended: for a well-formed store — pairwise-distinct
usernames; usernames and statuses nonempty and strip-invariant; open list
names nonempty, strip-invariant and comma-free; run ids not colliding with
the next id — exporting the current-state view and re-importing it under a
distinct list id reproduces every username's ProfileCurrentState values
(price, subscription status, first-seen) and leaves the membership table
literally unchanged (hence the same open list set), adding exactly one
synthetic ScrapeRun whose recorded timestamp is the `YYYY-MM-DD` date found
in the source filename when one is present and `datetime`-valid, else
the import wall clock. -/
theorem claim_C9 :
    (∀ (db : DB) (stem list_id : String) (wall : Nat),
      (db.users.map (fun r => r.username)).Nodup →
      (∀ r ∈ db.users, pyStrip r.username = r.username ∧ r.username ≠ "" ∧
        pyStrip r.subscription_status = r.subscription_status ∧
        r.subscription_status ≠ "") →
      (∀ r ∈ db.user_lists, r.removed_at = none →
        pyStrip r.list_name = r.list_name ∧ r.list_name ≠ "" ∧
        ',' ∉ r.list_name.toList) →
      (∀ r ∈ db.scrape_runs, r.id ≠ db.scrape_runs.length + 1) →
      (∀ urow ∈ db.users, ∃ r2,
        findUser (import_csv db stem (export_csv db) list_id none wall).1
          urow.username = some r2 ∧
        r2.current_price = urow.current_price ∧
        r2.subscription_status = urow.subscription_status ∧
        r2.first_seen = urow.first_seen) ∧
      (import_csv db stem (export_csv db) list_id none wall).1.user_lists =
        db.user_lists ∧
      (import_csv db stem (export_csv db) list_id none wall).1.scrape_runs.length =
        db.scrape_runs.length + 1 ∧
      runStartedAt (import_csv db stem (export_csv db) list_id none wall).1
          (import_csv db stem (export_csv db) list_id none wall).2.1 =
        some ((extract_date_from_filename stem).getD wall)) ∧
    runStartedAt (import_csv exDbClean "out-2024-03-05" (export_csv exDbClean)
      "imported" none 9).1 2 = some (dateStamp 2024 3 5) ∧
    runStartedAt (import_csv exDbClean "nodate" (export_csv exDbClean)
      "imported" none 9).1 2 = some 9 := by
  refine ⟨?_, by decide, by decide⟩
  intro db stem list_id wall hnodup husers hlists hids
  obtain ⟨hfind, huls, hruns⟩ :=
    import_fold db hnodup (db.scrape_runs.length + 1)
      ((extract_date_from_filename stem).getD wall) (export_csv db)
      (export_rows_spec db husers hlists)
      ((start_scrape_run db list_id
        ((extract_date_from_filename stem).getD wall)).1, 0)
      (fun urow hm => ⟨urow, findUser_self_of_nodup db hnodup urow hm,
        rfl, rfl, rfl⟩)
      rfl
  rw [import_csv_eq]
  refine ⟨?_, ?_, ?_, ?_⟩
  · intro urow hm
    obtain ⟨r2, hf, hp, hs, hfs⟩ := hfind urow hm
    exact ⟨r2, hf, hp, hs, hfs⟩
  · exact huls
  · rw [complete_scrape_runs_length, hruns]
    show (db.scrape_runs ++ [_]).length = _
    rw [List.length_append]
    rfl
  · apply runStartedAt_complete_append db.scrape_runs
      ⟨db.scrape_runs.length + 1, list_id,
        (extract_date_from_filename stem).getD wall, none, 0, "running"⟩
    · rw [hruns]
      rfl
    · rfl
    · exact hids

/-- Witness for claim C9: the round trip applied to the clean
two-membership store with a dated filename. -/
theorem claim_C9_witness :
    (import_csv exDbClean "out-2024-03-05" (export_csv exDbClean)
      "imported" none 9).1.user_lists = exDbClean.user_lists ∧
    runStartedAt (import_csv exDbClean "out-2024-03-05" (export_csv exDbClean)
        "imported" none 9).1
      (import_csv exDbClean "out-2024-03-05" (export_csv exDbClean)
        "imported" none 9).2.1 =
      some ((extract_date_from_filename "out-2024-03-05").getD 9) :=
  have h := claim_C9.1 exDbClean "out-2024-03-05" "imported" 9
    (by decide) (by decide) (by decide) (by decide)
  ⟨h.2.1, h.2.2.2⟩

end OFScraper
